import Mathlib

/-!
Verification of the memscan memory-inspection engine against its
natural-language specification.

The Rust sources are embedded shallowly:
* machine integers become `Nat` / `Int` with explicit `% 2^w` wrapping;
* byte buffers become `List Nat` (each entry a byte value);
* `f32` / `f64` payloads are carried as raw little-endian bit patterns
  (`Nat`), and the IEEE-754 primitives of the Rust standard library are
  abstracted into a `FloatOps` record that every float-touching function
  receives as a parameter;
* fallible Rust code returns `Option` or an explicit result inductive;
  a Rust panic is modelled as a distinguished result;
* OS reads (`read_process_memory`, `/proc/<pid>/mem`) are abstracted as a
  function `Nat → Nat → List Nat` mapping an address and a requested byte
  count to the bytes actually read (a shorter list models a short read).
-/

namespace Memscan

/-! ## Little-endian byte encoding primitives

Models of `uN::from_le_bytes` / `to_le_bytes` and the two's-complement
`iN` variants from the Rust standard library. -/

/-- Little-endian byte list (length `n`) of a natural number. -/
def toLeBytes : Nat → Nat → List Nat
  | 0, _ => []
  | n + 1, x => x % 256 :: toLeBytes n (x / 256)

/-- Natural number denoted by a little-endian byte list. -/
def fromLeBytes : List Nat → Nat
  | [] => 0
  | b :: rest => b + 256 * fromLeBytes rest

/-- Two's-complement reading of a little-endian byte list of width `w` bytes:
model of `iN::from_le_bytes`. -/
def decodeSigned (w : Nat) (l : List Nat) : Int :=
  if fromLeBytes l < 2 ^ (8 * w - 1) then (fromLeBytes l : Int)
  else (fromLeBytes l : Int) - (2 ^ (8 * w) : Int)

/-- Two's-complement wrap of an integer into `w` bytes: shared model of the
wrapping behaviour of the Rust `iN` arithmetic primitives. -/
def wrapSigned (w : Nat) (x : Int) : Int :=
  (x + 2 ^ (8 * w - 1)) % (2 ^ (8 * w) : Int) - 2 ^ (8 * w - 1)

/-- Model of `iN::wrapping_add`. -/
def wrappingAddI (w : Nat) (a b : Int) : Int := wrapSigned w (a + b)

/-- Model of `iN::wrapping_sub`. -/
def wrappingSubI (w : Nat) (a b : Int) : Int := wrapSigned w (a - b)

/-- Model of `iN::wrapping_mul`. -/
def wrappingMulI (w : Nat) (a b : Int) : Int := wrapSigned w (a * b)

/-- Model of `iN::wrapping_div`: truncated division, wrapping only on
`MIN / -1`; `none` models the Rust panic on a zero divisor. -/
def wrappingDivI (w : Nat) (a b : Int) : Option Int :=
  if b = 0 then none else some (wrapSigned w (a.tdiv b))

/-- Model of `uN::wrapping_add`. -/
def wrappingAddU (w : Nat) (a b : Nat) : Nat := (a + b) % 2 ^ (8 * w)

/-- Model of `uN::wrapping_sub`. -/
def wrappingSubU (w : Nat) (a b : Nat) : Nat :=
  (((a : Int) - (b : Int)) % (2 ^ (8 * w) : Int)).toNat

/-- Model of `uN::wrapping_mul`. -/
def wrappingMulU (w : Nat) (a b : Nat) : Nat := (a * b) % 2 ^ (8 * w)

/-- Model of `uN::wrapping_div`; `none` models the Rust panic on a zero
divisor. -/
def wrappingDivU (a b : Nat) : Option Nat :=
  if b = 0 then none else some (a / b)

/-! ## Typed values (`values.rs` and `interactive.rs` declare identical
`ValueType` / `Value` / `MathOp` / `FilterOp` enums; they are embedded once
and the module-specific functions are transcribed separately). -/

/-- `ValueType` enum (identical in `values.rs` and `interactive.rs`). -/
inductive ValueType
  | I8 | I16 | I32 | I64 | U8 | U16 | U32 | U64 | F32 | F64
deriving DecidableEq

/-- `ValueType::size`: byte width of the type. -/
def ValueType.size : ValueType → Nat
  | .I8 | .U8 => 1
  | .I16 | .U16 => 2
  | .I32 | .U32 | .F32 => 4
  | .I64 | .U64 | .F64 => 8

/-- `Value` enum (identical in `values.rs` and `interactive.rs`).
Integer payloads are `Int` (signed) or `Nat` (unsigned); float payloads are
raw bit patterns. -/
inductive Value
  | I8 (v : Int)
  | I16 (v : Int)
  | I32 (v : Int)
  | I64 (v : Int)
  | U8 (v : Nat)
  | U16 (v : Nat)
  | U32 (v : Nat)
  | U64 (v : Nat)
  | F32 (bits : Nat)
  | F64 (bits : Nat)
deriving DecidableEq

/-- `MathOp` enum (identical in `values.rs` and `interactive.rs`). -/
inductive MathOp
  | Add | Subtract | Multiply | Divide
deriving DecidableEq

/-- `FilterOp` enum from `interactive.rs`. -/
inductive FilterOp
  | Equals | LessThan | GreaterThan | Increased | Decreased | Changed | Unchanged
deriving DecidableEq

/-- Result of `apply_math_op`: `ok` is `Ok(value)`, `typeMismatch` is the
`bail!` on mismatched variants, `panic` is a Rust panic (integer division by
zero inside `wrapping_div`). -/
inductive MathResult
  | ok (v : Value)
  | typeMismatch
  | panic
deriving DecidableEq

/-- Abstraction of the IEEE-754 primitives of the Rust standard library
operating on raw bit patterns, plus the numeric readings used by the
spec-modelled checkpoint filter. All embedded functions that touch floats
take these as a parameter; no claim depends on their concrete behaviour. -/
structure FloatOps where
  f32add : Nat → Nat → Nat
  f32sub : Nat → Nat → Nat
  f32mul : Nat → Nat → Nat
  f32div : Nat → Nat → Nat
  f64add : Nat → Nat → Nat
  f64sub : Nat → Nat → Nat
  f64mul : Nat → Nat → Nat
  f64div : Nat → Nat → Nat
  f32eq : Nat → Nat → Bool
  f32lt : Nat → Nat → Bool
  f32gt : Nat → Nat → Bool
  f64eq : Nat → Nat → Bool
  f64lt : Nat → Nat → Bool
  f64gt : Nat → Nat → Bool
  f32toRat : Nat → ℚ
  f64toRat : Nat → ℚ

/-- A concrete degenerate `FloatOps`, used only to instantiate witnesses and
counterexamples at integer inputs where the float branches are unreachable. -/
def fopsZero : FloatOps where
  f32add := fun _ _ => 0
  f32sub := fun _ _ => 0
  f32mul := fun _ _ => 0
  f32div := fun _ _ => 0
  f64add := fun _ _ => 0
  f64sub := fun _ _ => 0
  f64mul := fun _ _ => 0
  f64div := fun _ _ => 0
  f32eq := fun _ _ => false
  f32lt := fun _ _ => false
  f32gt := fun _ _ => false
  f64eq := fun _ _ => false
  f64lt := fun _ _ => false
  f64gt := fun _ _ => false
  f32toRat := fun _ => 0
  f64toRat := fun _ => 0

/-! ## `interactive.rs`: `Value::from_bytes`, `Value::to_bytes`,
comparisons and `apply_math_op`. -/

/-- `interactive.rs` `Value::from_bytes(bytes, offset, value_type)`. -/
def interactiveFromBytes (bytes : List Nat) (offset : Nat) (vt : ValueType) :
    Option Value :=
  if bytes.length < offset + vt.size then none
  else
    let slice := (bytes.drop offset).take vt.size
    some (match vt with
      | .I8 => .I8 (decodeSigned 1 slice)
      | .I16 => .I16 (decodeSigned 2 slice)
      | .I32 => .I32 (decodeSigned 4 slice)
      | .I64 => .I64 (decodeSigned 8 slice)
      | .U8 => .U8 (fromLeBytes slice)
      | .U16 => .U16 (fromLeBytes slice)
      | .U32 => .U32 (fromLeBytes slice)
      | .U64 => .U64 (fromLeBytes slice)
      | .F32 => .F32 (fromLeBytes slice)
      | .F64 => .F64 (fromLeBytes slice))

/-- `interactive.rs` `Value::to_bytes`. Signed payloads are emitted as their
two's-complement little-endian bytes, float payloads as their bit-pattern
bytes, exactly as the Rust `to_le_bytes` primitives do. -/
def interactiveToBytes : Value → List Nat
  | .I8 v => toLeBytes 1 (v % (2 ^ 8 : Int)).toNat
  | .I16 v => toLeBytes 2 (v % (2 ^ 16 : Int)).toNat
  | .I32 v => toLeBytes 4 (v % (2 ^ 32 : Int)).toNat
  | .I64 v => toLeBytes 8 (v % (2 ^ 64 : Int)).toNat
  | .U8 v => toLeBytes 1 v
  | .U16 v => toLeBytes 2 v
  | .U32 v => toLeBytes 4 v
  | .U64 v => toLeBytes 8 v
  | .F32 bits => toLeBytes 4 bits
  | .F64 bits => toLeBytes 8 bits

/-- `interactive.rs` `values_equal`. -/
def interactiveValuesEqual (fops : FloatOps) (a b : Value) : Bool :=
  match a, b with
  | .I8 x, .I8 y => x = y
  | .I16 x, .I16 y => x = y
  | .I32 x, .I32 y => x = y
  | .I64 x, .I64 y => x = y
  | .U8 x, .U8 y => x = y
  | .U16 x, .U16 y => x = y
  | .U32 x, .U32 y => x = y
  | .U64 x, .U64 y => x = y
  | .F32 x, .F32 y => fops.f32eq x y
  | .F64 x, .F64 y => fops.f64eq x y
  | _, _ => false

/-- `interactive.rs` `value_less_than`. -/
def interactiveValueLessThan (fops : FloatOps) (a b : Value) : Bool :=
  match a, b with
  | .I8 x, .I8 y => x < y
  | .I16 x, .I16 y => x < y
  | .I32 x, .I32 y => x < y
  | .I64 x, .I64 y => x < y
  | .U8 x, .U8 y => x < y
  | .U16 x, .U16 y => x < y
  | .U32 x, .U32 y => x < y
  | .U64 x, .U64 y => x < y
  | .F32 x, .F32 y => fops.f32lt x y
  | .F64 x, .F64 y => fops.f64lt x y
  | _, _ => false

/-- `interactive.rs` `value_greater_than`. -/
def interactiveValueGreaterThan (fops : FloatOps) (a b : Value) : Bool :=
  match a, b with
  | .I8 x, .I8 y => x > y
  | .I16 x, .I16 y => x > y
  | .I32 x, .I32 y => x > y
  | .I64 x, .I64 y => x > y
  | .U8 x, .U8 y => x > y
  | .U16 x, .U16 y => x > y
  | .U32 x, .U32 y => x > y
  | .U64 x, .U64 y => x > y
  | .F32 x, .F32 y => fops.f32gt x y
  | .F64 x, .F64 y => fops.f64gt x y
  | _, _ => false

/-- `interactive.rs` `apply_math_op(a, b, op)`. Integer arithmetic uses the
wrapping primitives; `wrapping_div` with a zero divisor is a Rust panic. -/
def interactiveApplyMathOp (fops : FloatOps) (a b : Value) (op : MathOp) :
    MathResult :=
  match a, b with
  | .I8 x, .I8 y =>
    match op with
    | .Add => .ok (.I8 (wrappingAddI 1 x y))
    | .Subtract => .ok (.I8 (wrappingSubI 1 x y))
    | .Multiply => .ok (.I8 (wrappingMulI 1 x y))
    | .Divide =>
      match wrappingDivI 1 x y with
      | some r => .ok (.I8 r)
      | none => .panic
  | .I16 x, .I16 y =>
    match op with
    | .Add => .ok (.I16 (wrappingAddI 2 x y))
    | .Subtract => .ok (.I16 (wrappingSubI 2 x y))
    | .Multiply => .ok (.I16 (wrappingMulI 2 x y))
    | .Divide =>
      match wrappingDivI 2 x y with
      | some r => .ok (.I16 r)
      | none => .panic
  | .I32 x, .I32 y =>
    match op with
    | .Add => .ok (.I32 (wrappingAddI 4 x y))
    | .Subtract => .ok (.I32 (wrappingSubI 4 x y))
    | .Multiply => .ok (.I32 (wrappingMulI 4 x y))
    | .Divide =>
      match wrappingDivI 4 x y with
      | some r => .ok (.I32 r)
      | none => .panic
  | .I64 x, .I64 y =>
    match op with
    | .Add => .ok (.I64 (wrappingAddI 8 x y))
    | .Subtract => .ok (.I64 (wrappingSubI 8 x y))
    | .Multiply => .ok (.I64 (wrappingMulI 8 x y))
    | .Divide =>
      match wrappingDivI 8 x y with
      | some r => .ok (.I64 r)
      | none => .panic
  | .U8 x, .U8 y =>
    match op with
    | .Add => .ok (.U8 (wrappingAddU 1 x y))
    | .Subtract => .ok (.U8 (wrappingSubU 1 x y))
    | .Multiply => .ok (.U8 (wrappingMulU 1 x y))
    | .Divide =>
      match wrappingDivU x y with
      | some r => .ok (.U8 r)
      | none => .panic
  | .U16 x, .U16 y =>
    match op with
    | .Add => .ok (.U16 (wrappingAddU 2 x y))
    | .Subtract => .ok (.U16 (wrappingSubU 2 x y))
    | .Multiply => .ok (.U16 (wrappingMulU 2 x y))
    | .Divide =>
      match wrappingDivU x y with
      | some r => .ok (.U16 r)
      | none => .panic
  | .U32 x, .U32 y =>
    match op with
    | .Add => .ok (.U32 (wrappingAddU 4 x y))
    | .Subtract => .ok (.U32 (wrappingSubU 4 x y))
    | .Multiply => .ok (.U32 (wrappingMulU 4 x y))
    | .Divide =>
      match wrappingDivU x y with
      | some r => .ok (.U32 r)
      | none => .panic
  | .U64 x, .U64 y =>
    match op with
    | .Add => .ok (.U64 (wrappingAddU 8 x y))
    | .Subtract => .ok (.U64 (wrappingSubU 8 x y))
    | .Multiply => .ok (.U64 (wrappingMulU 8 x y))
    | .Divide =>
      match wrappingDivU x y with
      | some r => .ok (.U64 r)
      | none => .panic
  | .F32 x, .F32 y =>
    match op with
    | .Add => .ok (.F32 (fops.f32add x y))
    | .Subtract => .ok (.F32 (fops.f32sub x y))
    | .Multiply => .ok (.F32 (fops.f32mul x y))
    | .Divide => .ok (.F32 (fops.f32div x y))
  | .F64 x, .F64 y =>
    match op with
    | .Add => .ok (.F64 (fops.f64add x y))
    | .Subtract => .ok (.F64 (fops.f64sub x y))
    | .Multiply => .ok (.F64 (fops.f64mul x y))
    | .Divide => .ok (.F64 (fops.f64div x y))
  | _, _ => .typeMismatch

/-! ## `values.rs`: independent transcription of the duplicated
`Value::from_bytes` and `apply_math_op`. -/

/-- `values.rs` `Value::from_bytes(bytes, offset, value_type)`. -/
def valuesFromBytes (bytes : List Nat) (offset : Nat) (vt : ValueType) :
    Option Value :=
  if bytes.length < offset + vt.size then none
  else
    let slice := (bytes.drop offset).take vt.size
    some (match vt with
      | .I8 => .I8 (decodeSigned 1 slice)
      | .I16 => .I16 (decodeSigned 2 slice)
      | .I32 => .I32 (decodeSigned 4 slice)
      | .I64 => .I64 (decodeSigned 8 slice)
      | .U8 => .U8 (fromLeBytes slice)
      | .U16 => .U16 (fromLeBytes slice)
      | .U32 => .U32 (fromLeBytes slice)
      | .U64 => .U64 (fromLeBytes slice)
      | .F32 => .F32 (fromLeBytes slice)
      | .F64 => .F64 (fromLeBytes slice))

/-- `values.rs` `apply_math_op(a, b, op)`. -/
def valuesApplyMathOp (fops : FloatOps) (a b : Value) (op : MathOp) :
    MathResult :=
  match a, b with
  | .I8 x, .I8 y =>
    match op with
    | .Add => .ok (.I8 (wrappingAddI 1 x y))
    | .Subtract => .ok (.I8 (wrappingSubI 1 x y))
    | .Multiply => .ok (.I8 (wrappingMulI 1 x y))
    | .Divide =>
      match wrappingDivI 1 x y with
      | some r => .ok (.I8 r)
      | none => .panic
  | .I16 x, .I16 y =>
    match op with
    | .Add => .ok (.I16 (wrappingAddI 2 x y))
    | .Subtract => .ok (.I16 (wrappingSubI 2 x y))
    | .Multiply => .ok (.I16 (wrappingMulI 2 x y))
    | .Divide =>
      match wrappingDivI 2 x y with
      | some r => .ok (.I16 r)
      | none => .panic
  | .I32 x, .I32 y =>
    match op with
    | .Add => .ok (.I32 (wrappingAddI 4 x y))
    | .Subtract => .ok (.I32 (wrappingSubI 4 x y))
    | .Multiply => .ok (.I32 (wrappingMulI 4 x y))
    | .Divide =>
      match wrappingDivI 4 x y with
      | some r => .ok (.I32 r)
      | none => .panic
  | .I64 x, .I64 y =>
    match op with
    | .Add => .ok (.I64 (wrappingAddI 8 x y))
    | .Subtract => .ok (.I64 (wrappingSubI 8 x y))
    | .Multiply => .ok (.I64 (wrappingMulI 8 x y))
    | .Divide =>
      match wrappingDivI 8 x y with
      | some r => .ok (.I64 r)
      | none => .panic
  | .U8 x, .U8 y =>
    match op with
    | .Add => .ok (.U8 (wrappingAddU 1 x y))
    | .Subtract => .ok (.U8 (wrappingSubU 1 x y))
    | .Multiply => .ok (.U8 (wrappingMulU 1 x y))
    | .Divide =>
      match wrappingDivU x y with
      | some r => .ok (.U8 r)
      | none => .panic
  | .U16 x, .U16 y =>
    match op with
    | .Add => .ok (.U16 (wrappingAddU 2 x y))
    | .Subtract => .ok (.U16 (wrappingSubU 2 x y))
    | .Multiply => .ok (.U16 (wrappingMulU 2 x y))
    | .Divide =>
      match wrappingDivU x y with
      | some r => .ok (.U16 r)
      | none => .panic
  | .U32 x, .U32 y =>
    match op with
    | .Add => .ok (.U32 (wrappingAddU 4 x y))
    | .Subtract => .ok (.U32 (wrappingSubU 4 x y))
    | .Multiply => .ok (.U32 (wrappingMulU 4 x y))
    | .Divide =>
      match wrappingDivU x y with
      | some r => .ok (.U32 r)
      | none => .panic
  | .U64 x, .U64 y =>
    match op with
    | .Add => .ok (.U64 (wrappingAddU 8 x y))
    | .Subtract => .ok (.U64 (wrappingSubU 8 x y))
    | .Multiply => .ok (.U64 (wrappingMulU 8 x y))
    | .Divide =>
      match wrappingDivU x y with
      | some r => .ok (.U64 r)
      | none => .panic
  | .F32 x, .F32 y =>
    match op with
    | .Add => .ok (.F32 (fops.f32add x y))
    | .Subtract => .ok (.F32 (fops.f32sub x y))
    | .Multiply => .ok (.F32 (fops.f32mul x y))
    | .Divide => .ok (.F32 (fops.f32div x y))
  | .F64 x, .F64 y =>
    match op with
    | .Add => .ok (.F64 (fops.f64add x y))
    | .Subtract => .ok (.F64 (fops.f64sub x y))
    | .Multiply => .ok (.F64 (fops.f64mul x y))
    | .Divide => .ok (.F64 (fops.f64div x y))
  | _, _ => .typeMismatch

/-! ## `process.rs`: regions, protection flags and the interesting-region
predicate; `linux/process.rs`: the region iterator step. -/

/-- `process.rs` `MemoryProtection`. -/
structure MemoryProtection where
  no_access : Bool
  read : Bool
  write : Bool
  execute : Bool
  copy_on_write : Bool
  guarded : Bool
  no_cache : Bool
deriving DecidableEq

/-- `process.rs` `MemoryState`. -/
structure MemoryState where
  committed : Bool
  free : Bool
  reserved : Bool
deriving DecidableEq

/-- `process.rs` `MemoryType`. -/
inductive MemoryType
  | Unknown | Private | Mapped | Image
deriving DecidableEq

/-- `process.rs` `MemoryRegion`. -/
structure MemoryRegion where
  base_address : Nat
  size : Nat
  protect : MemoryProtection
  state : MemoryState
  type_ : MemoryType
  image_file : Option String
deriving DecidableEq

/-- `process.rs` `is_region_interesting`. -/
def isRegionInteresting (prot : MemoryProtection) (state : MemoryState) : Bool :=
  if !state.committed || state.free || state.reserved || prot.no_access
      || prot.guarded then
    false
  else
    true

/-- Largest `usize` value on a 64-bit target. -/
def usizeMax : Nat := 2 ^ 64 - 1

/-- Model of `usize::saturating_add`. -/
def saturatingAdd (a b : Nat) : Nat := min (a + b) usizeMax

/-- `linux/process.rs` `memory_region_iterator_next`: find the first map
entry whose base is at least `cur` (the binary search over the sorted map
list), advance the cursor past it, and yield it only when it passes
`is_region_interesting` (with `image_file` dropped). Returns the new cursor
and the optional region. -/
def memoryRegionIteratorNextUnix (maps : List MemoryRegion) (cur : Nat) :
    Nat × Option MemoryRegion :=
  match maps.findIdx? (fun m => decide (cur ≤ m.base_address)) with
  | none => (usizeMax, none)
  | some idx =>
    match maps.get? idx with
    | none => (usizeMax, none)
    | some m =>
      let nextAddr := saturatingAdd m.base_address m.size
      if isRegionInteresting m.protect m.state then
        (nextAddr, some { base_address := m.base_address, size := m.size,
                          protect := m.protect, state := m.state,
                          type_ := m.type_, image_file := none })
      else
        (nextAddr, none)

/-- `process.rs` `MemoryRegionIterator::next`: loop the platform step while
`cur < max`, returning the first yielded region. `fuel` bounds the number of
platform steps taken (the Rust loop has no such bound; every theorem about
the loop holds for every fuel). -/
def memoryRegionIteratorLoop (maps : List MemoryRegion) :
    Nat → Nat → Nat → Nat × Option MemoryRegion
  | 0, cur, _ => (cur, none)
  | fuel + 1, cur, maxAddr =>
    if cur < maxAddr then
      match memoryRegionIteratorNextUnix maps cur with
      | (cur2, some r) => (cur2, some r)
      | (cur2, none) => memoryRegionIteratorLoop maps fuel cur2 maxAddr
    else
      (cur, none)

/-! ## `interactive.rs`: the interactive scanner. -/

/-- `interactive.rs` `MatchedAddress`. -/
structure MatchedAddress where
  address : Nat
  current_value : Value
  previous_value : Option Value
deriving DecidableEq

/-- `interactive.rs` `InteractiveScanner` state (the borrowed process handle
becomes the read function passed to each operation). -/
structure InteractiveScanner where
  regions : List MemoryRegion
  matches_ : List MatchedAddress
  value_type : ValueType
  alignment : Nat
deriving DecidableEq

/-- The scan loop inside `InteractiveScanner::initial_scan` for one region
buffer: `offset` starts at 0 and advances by `alignment` while
`offset + size ≤ buffer.len()`; aligned offsets that decode get pushed.
`fuel` bounds the iteration count (the caller passes enough fuel for any
positive alignment). -/
def scanRegionLoop (vt : ValueType) (align : Nat) (base : Nat)
    (buffer : List Nat) : Nat → Nat → List MatchedAddress
  | 0, _ => []
  | fuel + 1, offset =>
    if offset + vt.size ≤ buffer.length then
      if offset % align = 0 then
        match interactiveFromBytes buffer offset vt with
        | some v => ⟨base + offset, v, none⟩
            :: scanRegionLoop vt align base buffer fuel (offset + align)
        | none => scanRegionLoop vt align base buffer fuel (offset + align)
      else
        scanRegionLoop vt align base buffer fuel (offset + align)
    else
      []

/-- `InteractiveScanner::initial_scan`, abstracted over the process read
function: clear the matches, then for every region read its full buffer
(skipping regions that read short) and append the scan-loop matches.
Returns the new scanner state and the match count. -/
def initialScan (readMem : Nat → Nat → List Nat) (st : InteractiveScanner) :
    InteractiveScanner × Nat :=
  let ms := st.regions.foldl
    (fun acc region =>
      let buffer := readMem region.base_address region.size
      if buffer.length < region.size then acc
      else
        acc ++ scanRegionLoop st.value_type st.alignment region.base_address
          buffer (buffer.length + 1) 0)
    []
  ({ st with matches_ := ms }, ms.length)

/-- The per-match body of `InteractiveScanner::filter`: re-read the value at
the match address (skip on short read or failed decode), evaluate the
predicate, and keep the match with updated current/previous values when it
holds. -/
def filterKeep (fops : FloatOps) (readMem : Nat → Nat → List Nat)
    (vt : ValueType) (op : FilterOp) (compareValue : Option Value)
    (m : MatchedAddress) : Option MatchedAddress :=
  let buffer := readMem m.address vt.size
  if buffer.length < vt.size then none
  else
    match interactiveFromBytes buffer 0 vt with
    | none => none
    | some current =>
      let keep :=
        match op with
        | .Equals =>
          match compareValue with
          | some val => interactiveValuesEqual fops current val
          | none => false
        | .LessThan =>
          match compareValue with
          | some val => interactiveValueLessThan fops current val
          | none => false
        | .GreaterThan =>
          match compareValue with
          | some val => interactiveValueGreaterThan fops current val
          | none => false
        | .Increased => interactiveValueGreaterThan fops current m.current_value
        | .Decreased => interactiveValueLessThan fops current m.current_value
        | .Changed => !interactiveValuesEqual fops current m.current_value
        | .Unchanged => interactiveValuesEqual fops current m.current_value
      if keep then
        some ⟨m.address, current, some m.current_value⟩
      else
        none

/-- `InteractiveScanner::cleanup_empty_regions`: with no matches, drop all
regions; otherwise keep exactly the regions that are the first container of
some match. -/
def cleanupEmptyRegions (st : InteractiveScanner) : InteractiveScanner :=
  if st.matches_.isEmpty then { st with regions := [] }
  else
    let activeRegions : List Nat := st.matches_.filterMap
      (fun m => st.regions.findIdx?
        (fun region => decide (region.base_address ≤ m.address
          ∧ m.address < region.base_address + region.size)))
    { st with regions :=
        ((st.regions.enum.filter (fun p => activeRegions.contains p.1)).map
          (fun p => p.2)) }

/-- `InteractiveScanner::filter`, abstracted over the process read function:
rebuild the match list with `filterKeep`, run the region cleanup, and return
the new state with the surviving match count. -/
def filterScan (fops : FloatOps) (readMem : Nat → Nat → List Nat)
    (st : InteractiveScanner) (op : FilterOp) (compareValue : Option Value) :
    InteractiveScanner × Nat :=
  let newMatches := st.matches_.filterMap
    (filterKeep fops readMem st.value_type op compareValue)
  let cleaned := cleanupEmptyRegions { st with matches_ := newMatches }
  (cleaned, cleaned.matches_.length)

/-! ## `memmap.rs` and `linux/memmap.rs`: the region mapper. -/

/-- `memmap.rs` `MappedMemory` (the platform-specific inner buffer of
`linux/memmap.rs` inlined as the byte list). -/
structure MappedMemory where
  remote_region : MemoryRegion
  data : List Nat
deriving DecidableEq

/-- `MappedMemory::map_region` via `MappedMemoryUnix`: read the full region
into a local buffer; a short read is an error (`none`). -/
def mappedMemoryMapRegion (readMem : Nat → Nat → List Nat)
    (region : MemoryRegion) : Option MappedMemory :=
  let buffer := readMem region.base_address region.size
  if buffer.length < region.size then none
  else some { remote_region := region, data := buffer }

/-- `HashMap::insert` on the association-list model of
`MemoryMapper::mappings`: the new entry replaces any entry with the same
key. -/
def insertMapping (key : Nat) (value : MappedMemory)
    (mappings : List (Nat × MappedMemory)) : List (Nat × MappedMemory) :=
  (key, value) :: mappings.filter (fun p => p.1 ≠ key)

/-- `HashMap::get` on the association-list model. -/
def lookupMapping (mappings : List (Nat × MappedMemory)) (key : Nat) :
    Option MappedMemory :=
  (mappings.find? (fun p => p.1 = key)).map (fun p => p.2)

/-- `MemoryMapper::map_region`: map the region and insert it keyed by its
remote base address. No overlap check of any kind is performed. -/
def mapperMapRegion (readMem : Nat → Nat → List Nat)
    (mappings : List (Nat × MappedMemory)) (region : MemoryRegion) :
    Option (List (Nat × MappedMemory)) :=
  match mappedMemoryMapRegion readMem region with
  | none => none
  | some mapped =>
    some (insertMapping mapped.remote_region.base_address mapped mappings)

/-- Two regions overlap when they share at least one address. -/
def regionsOverlap (r1 r2 : MemoryRegion) : Bool :=
  decide (r1.base_address < r2.base_address + r2.size
    ∧ r2.base_address < r1.base_address + r1.size)

/-! ## `diff.rs`: snapshots and `diff_snapshots`. -/

/-- `diff.rs` `MemoryChange`. -/
structure MemoryChange where
  address : Nat
  old_value : Nat
  new_value : Nat
deriving DecidableEq

/-- `diff.rs` `MemoryRegionSnapshot`, collapsed to what `diff_snapshots`
observes: the value of `base_address()` (derived from the backing source)
and the data buffer. -/
structure Snapshot where
  base_address : Nat
  data : List Nat
deriving DecidableEq

/-- `diff.rs` `diff_snapshots(old, new)`. -/
def diffSnapshots (old new : Snapshot) : List MemoryChange :=
  if old.base_address ≠ new.base_address
      ∨ old.data.length ≠ new.data.length then []
  else
    (List.enum (old.data.zip new.data)).filterMap
      (fun p =>
        if p.2.1 ≠ p.2.2 then
          some { address := old.base_address + p.1, old_value := p.2.1,
                 new_value := p.2.2 }
        else
          none)

/-! ## `lib.rs`: `parse_hex_pattern`.

The Rust function filters out Unicode whitespace, checks that the remaining
UTF-8 **byte** length is even, and then slices the filtered string two bytes
at a time, handing each two-byte slice to `u8::from_str_radix(_, 16)`.
Slicing at a position that is not a character boundary is a Rust panic, and
`from_str_radix` accepts an optional leading `+`/`-` sign. The embedding
works on the character list and tracks UTF-8 widths explicitly. -/

/-- The Unicode `White_Space` code points: model of Rust
`char::is_whitespace`. -/
def isRustWhitespace (c : Char) : Bool :=
  c.toNat = 0x09 ∨ c.toNat = 0x0A ∨ c.toNat = 0x0B ∨ c.toNat = 0x0C
    ∨ c.toNat = 0x0D ∨ c.toNat = 0x20 ∨ c.toNat = 0x85 ∨ c.toNat = 0xA0
    ∨ c.toNat = 0x1680 ∨ (0x2000 ≤ c.toNat ∧ c.toNat ≤ 0x200A)
    ∨ c.toNat = 0x2028 ∨ c.toNat = 0x2029 ∨ c.toNat = 0x202F
    ∨ c.toNat = 0x205F ∨ c.toNat = 0x3000

/-- Number of bytes of the UTF-8 encoding of a character. -/
def utf8Len (c : Char) : Nat :=
  if c.toNat < 0x80 then 1
  else if c.toNat < 0x800 then 2
  else if c.toNat < 0x10000 then 3
  else 4

/-- Model of Rust `char::to_digit(16)` (code points `0-9`, `a-f`, `A-F`). -/
def hexDigit? (c : Char) : Option Nat :=
  if 48 ≤ c.toNat ∧ c.toNat ≤ 57 then some (c.toNat - 48)
  else if 97 ≤ c.toNat ∧ c.toNat ≤ 102 then some (c.toNat - 87)
  else if 65 ≤ c.toNat ∧ c.toNat ≤ 70 then some (c.toNat - 55)
  else none

/-- Model of `u8::from_str_radix(s, 16)` on a two-character string: for an
unsigned type only an optional leading `+` sign is consumed (the `-` arm of
the Rust parser is gated on signed types), so a leading `-` falls through to
digit parsing and fails as an invalid digit. -/
def fromStrRadix2 (c1 c2 : Char) : Option Nat :=
  if c1 = '+' then hexDigit? c2
  else
    match hexDigit? c1, hexDigit? c2 with
    | some d1, some d2 => some (16 * d1 + d2)
    | _, _ => none

/-- Model of `u8::from_str_radix(s, 16)` on a one-character string (the case
of a single two-byte character filling a two-byte slice): a bare `+` sign is
an empty-digits error, anything else parses as a single digit or fails. -/
def fromStrRadix1 (c : Char) : Option Nat :=
  if c = '+' then none else hexDigit? c

/-- Outcome of `parse_hex_pattern`: parsed bytes, a returned parse error, or
a Rust panic (a two-byte slice boundary falling inside a multi-byte
character). -/
inductive HexResult
  | ok (bytes : List Nat)
  | err
  | panic
deriving DecidableEq

/-- The chunking loop of `parse_hex_pattern`: consume the filtered
characters two UTF-8 bytes at a time. A chunk made of two one-byte
characters or of one two-byte character reaches `from_str_radix`; a chunk
whose second byte falls inside a wider character is a slicing panic. -/
def hexChunks : List Char → HexResult
  | [] => .ok []
  | c :: rest =>
    if utf8Len c = 1 then
      match rest with
      | [] => .err
      | c2 :: rest2 =>
        if utf8Len c2 = 1 then
          match fromStrRadix2 c c2 with
          | some b =>
            match hexChunks rest2 with
            | .ok bs => .ok (b :: bs)
            | r => r
          | none => .err
        else
          .panic
    else if utf8Len c = 2 then
      match fromStrRadix1 c with
      | some b =>
        match hexChunks rest with
        | .ok bs => .ok (b :: bs)
        | r => r
      | none => .err
    else
      .panic

/-- `lib.rs` `parse_hex_pattern`: strip Unicode whitespace, reject an odd
UTF-8 byte length, then parse two-byte chunks. -/
def parseHexPattern (s : List Char) : HexResult :=
  if (((s.filter (fun c => !isRustWhitespace c)).map utf8Len).sum) % 2 ≠ 0
  then .err
  else hexChunks (s.filter (fun c => !isRustWhitespace c))

/-- Plain two-hex-digit decoding of an even-length digit string: the reading
the specification describes. -/
def pairDecode : List Char → List Nat
  | c1 :: c2 :: rest =>
    (16 * ((hexDigit? c1).getD 0) + ((hexDigit? c2).getD 0)) :: pairDecode rest
  | _ => []

/-! ## Spec-modelled checkpoint machinery.

`python.rs` calls `InteractiveScanner::save_checkpoint`,
`list_checkpoints`, `delete_checkpoint` and `filter_checkpoint_relative`,
but the `interactive.rs` under `src/` does not contain them: the checkpoint
implementation is code of this repository missing from `src/`. The
definitions below are therefore modelled from the specification text
(§4.5), with the `f64` arithmetic of `within_margin` idealized as exact
rational arithmetic. -/

/-- Modelled from the spec: `value_subtract(a, b)` returns `a − b` when the
variants match (integer wrapping, float IEEE), absent otherwise. The missing
source is the checkpoint support of `InteractiveScanner`. -/
def valueSubtract (fops : FloatOps) (a b : Value) : Option Value :=
  match a, b with
  | .I8 x, .I8 y => some (.I8 (wrappingSubI 1 x y))
  | .I16 x, .I16 y => some (.I16 (wrappingSubI 2 x y))
  | .I32 x, .I32 y => some (.I32 (wrappingSubI 4 x y))
  | .I64 x, .I64 y => some (.I64 (wrappingSubI 8 x y))
  | .U8 x, .U8 y => some (.U8 (wrappingSubU 1 x y))
  | .U16 x, .U16 y => some (.U16 (wrappingSubU 2 x y))
  | .U32 x, .U32 y => some (.U32 (wrappingSubU 4 x y))
  | .U64 x, .U64 y => some (.U64 (wrappingSubU 8 x y))
  | .F32 x, .F32 y => some (.F32 (fops.f32sub x y))
  | .F64 x, .F64 y => some (.F64 (fops.f64sub x y))
  | _, _ => none

/-- Modelled from the spec: `value_to_f64(v)`, the lossy numeric widening
used by the margin comparison, idealized as an exact rational reading
(float payloads read through the abstract `FloatOps`). -/
def valueToRat (fops : FloatOps) : Value → ℚ
  | .I8 v => (v : ℚ)
  | .I16 v => (v : ℚ)
  | .I32 v => (v : ℚ)
  | .I64 v => (v : ℚ)
  | .U8 v => (v : ℚ)
  | .U16 v => (v : ℚ)
  | .U32 v => (v : ℚ)
  | .U64 v => (v : ℚ)
  | .F32 bits => fops.f32toRat bits
  | .F64 bits => fops.f64toRat bits

/-- Modelled from the spec: `within_margin(a, b, m%)` — if both magnitudes
are below `1e-10`, true; else if `max(|a|,|b|) < 1e-10`, true iff
`|a−b| < 1e-10`; else `100·|a−b|/max(|a|,|b|) ≤ m`. `f64` arithmetic is
idealized as exact rational arithmetic. -/
def withinMargin (a b m : ℚ) : Bool :=
  if |a| < 1 / 10 ^ 10 ∧ |b| < 1 / 10 ^ 10 then true
  else if max |a| |b| < 1 / 10 ^ 10 then decide (|a - b| < 1 / 10 ^ 10)
  else decide (100 * |a - b| / max |a| |b| ≤ m)

/-- Association-list lookup in a checkpoint's `address → Value` mapping. -/
def lookupCheckpoint (cp : List (Nat × Value)) (a : Nat) : Option Value :=
  (cp.find? (fun p => p.1 = a)).map (fun p => p.2)

/-- Modelled from the spec: `filter_checkpoint_relative(cp1, cp2, cp3, m%)`.
For each matched address present in all three checkpoints with same-variant
values, compute `delta1 = cp2[a] − cp1[a]`, `delta2 = cp3[a] − cp2[a]`, keep
the match when `within_margin(delta1, delta2, m)` holds, and set its
current value to the freshly re-decoded live value (`live`); matches whose
live value can no longer be decoded are silently skipped, as are matches
absent from a checkpoint or with mismatched variants. -/
def checkpointKeep (fops : FloatOps) (live : Nat → Option Value)
    (cp1 cp2 cp3 : List (Nat × Value)) (m : ℚ) (ma : MatchedAddress) :
    Option MatchedAddress :=
  match lookupCheckpoint cp1 ma.address, lookupCheckpoint cp2 ma.address,
      lookupCheckpoint cp3 ma.address with
  | some v1, some v2, some v3 =>
    match valueSubtract fops v2 v1, valueSubtract fops v3 v2 with
    | some d1, some d2 =>
      if withinMargin (valueToRat fops d1) (valueToRat fops d2) m then
        match live ma.address with
        | some w => some { ma with current_value := w }
        | none => none
      else
        none
    | _, _ => none
  | _, _, _ => none

/-- Modelled from the spec: the match-list rebuild of
`filter_checkpoint_relative` is the per-match keep decision applied across
the current matches. -/
def filterCheckpointRelative (fops : FloatOps) (live : Nat → Option Value)
    (ms : List MatchedAddress) (cp1 cp2 cp3 : List (Nat × Value)) (m : ℚ) :
    List MatchedAddress :=
  ms.filterMap (checkpointKeep fops live cp1 cp2 cp3 m)

/-! ## Helper definitions used by theorem statements -/

/-- The `ValueType` variant of a `Value`. -/
def Value.valueType : Value → ValueType
  | .I8 _ => .I8
  | .I16 _ => .I16
  | .I32 _ => .I32
  | .I64 _ => .I64
  | .U8 _ => .U8
  | .U16 _ => .U16
  | .U32 _ => .U32
  | .U64 _ => .U64
  | .F32 _ => .F32
  | .F64 _ => .F64

/-- Payload well-formedness: the carried scalar (or bit pattern) fits the
machine width of its variant. -/
def Value.wf : Value → Prop
  | .I8 v => -(2 ^ 7) ≤ v ∧ v < 2 ^ 7
  | .I16 v => -(2 ^ 15) ≤ v ∧ v < 2 ^ 15
  | .I32 v => -(2 ^ 31) ≤ v ∧ v < 2 ^ 31
  | .I64 v => -(2 ^ 63) ≤ v ∧ v < 2 ^ 63
  | .U8 v => v < 2 ^ 8
  | .U16 v => v < 2 ^ 16
  | .U32 v => v < 2 ^ 32
  | .U64 v => v < 2 ^ 64
  | .F32 bits => bits < 2 ^ 32
  | .F64 bits => bits < 2 ^ 64

/-- The value decoded by `Value::from_bytes` when the bounds check passes:
the unguarded decoding body, used to state what `initial_scan` stores. -/
def decodeValue (bytes : List Nat) (offset : Nat) (vt : ValueType) : Value :=
  match vt with
  | .I8 => .I8 (decodeSigned 1 ((bytes.drop offset).take vt.size))
  | .I16 => .I16 (decodeSigned 2 ((bytes.drop offset).take vt.size))
  | .I32 => .I32 (decodeSigned 4 ((bytes.drop offset).take vt.size))
  | .I64 => .I64 (decodeSigned 8 ((bytes.drop offset).take vt.size))
  | .U8 => .U8 (fromLeBytes ((bytes.drop offset).take vt.size))
  | .U16 => .U16 (fromLeBytes ((bytes.drop offset).take vt.size))
  | .U32 => .U32 (fromLeBytes ((bytes.drop offset).take vt.size))
  | .U64 => .U64 (fromLeBytes ((bytes.drop offset).take vt.size))
  | .F32 => .F32 (fromLeBytes ((bytes.drop offset).take vt.size))
  | .F64 => .F64 (fromLeBytes ((bytes.drop offset).take vt.size))

/-- The integer (non-float) value types. -/
def ValueType.isInteger : ValueType → Bool
  | .F32 | .F64 => false
  | _ => true

/-- Build the integer `Value` of type `t` carrying scalar `x` (float types
yield a dummy and are excluded by hypotheses). -/
def mkIntValue : ValueType → Int → Value
  | .I8, x => .I8 x
  | .I16, x => .I16 x
  | .I32, x => .I32 x
  | .I64, x => .I64 x
  | .U8, x => .U8 x.toNat
  | .U16, x => .U16 x.toNat
  | .U32, x => .U32 x.toNat
  | .U64, x => .U64 x.toNat
  | .F32, _ => .F32 0
  | .F64, _ => .F64 0

/-- The scalar range of an integer value type. -/
def intInRange : ValueType → Int → Prop
  | .I8, x => -(2 ^ 7) ≤ x ∧ x < 2 ^ 7
  | .I16, x => -(2 ^ 15) ≤ x ∧ x < 2 ^ 15
  | .I32, x => -(2 ^ 31) ≤ x ∧ x < 2 ^ 31
  | .I64, x => -(2 ^ 63) ≤ x ∧ x < 2 ^ 63
  | .U8, x => 0 ≤ x ∧ x < 2 ^ 8
  | .U16, x => 0 ≤ x ∧ x < 2 ^ 16
  | .U32, x => 0 ≤ x ∧ x < 2 ^ 32
  | .U64, x => 0 ≤ x ∧ x < 2 ^ 64
  | .F32, _ => False
  | .F64, _ => False

/-- Mathematical wrapping of an exact integer result into the value of
integer type `t`: reduction modulo `2^width`, two's-complement for the
signed types. -/
def wrapIntoType : ValueType → Int → Value
  | .I8, x => .I8 (wrapSigned 1 x)
  | .I16, x => .I16 (wrapSigned 2 x)
  | .I32, x => .I32 (wrapSigned 4 x)
  | .I64, x => .I64 (wrapSigned 8 x)
  | .U8, x => .U8 ((x % (2 ^ 8 : Int)).toNat)
  | .U16, x => .U16 ((x % (2 ^ 16 : Int)).toNat)
  | .U32, x => .U32 ((x % (2 ^ 32 : Int)).toNat)
  | .U64, x => .U64 ((x % (2 ^ 64 : Int)).toNat)
  | .F32, _ => .F32 0
  | .F64, _ => .F64 0

/-- Exact integer meaning of a math operation (`Divide` truncates toward
zero, as Rust integer division does). -/
def exactIntOp : MathOp → Int → Int → Int
  | .Add, x, y => x + y
  | .Subtract, x, y => x - y
  | .Multiply, x, y => x * y
  | .Divide, x, y => x.tdiv y

/-- A concrete fully-readable memory model: every requested byte reads as
zero. -/
def readZeros : Nat → Nat → List Nat := fun _ n => List.replicate n 0

/-- A concrete committed readable region at base 0 of size 4. -/
def regionA : MemoryRegion :=
  { base_address := 0, size := 4,
    protect := { no_access := false, read := true, write := false,
                 execute := false, copy_on_write := false, guarded := false,
                 no_cache := false },
    state := { committed := true, free := false, reserved := false },
    type_ := .Private, image_file := none }

/-- A concrete region overlapping `regionA`: base 2, size 4. -/
def regionB : MemoryRegion := { regionA with base_address := 2 }

/-! ## Shared lemmas -/

theorem toLeBytes_length (n x : Nat) : (toLeBytes n x).length = n := by
  induction n generalizing x with
  | zero => rfl
  | succ n ih => simp [toLeBytes, ih]

theorem fromLeBytes_toLeBytes (n x : Nat) (h : x < 256 ^ n) :
    fromLeBytes (toLeBytes n x) = x := by
  induction n generalizing x with
  | zero =>
    have hx : x = 0 := by
      have := Nat.lt_one_iff.mp (by simpa using h)
      exact this
    simp [hx, toLeBytes, fromLeBytes]
  | succ n ih =>
    have hx : x / 256 < 256 ^ n := by
      rw [Nat.div_lt_iff_lt_mul (by norm_num)]
      calc x < 256 ^ (n + 1) := h
        _ = 256 ^ n * 256 := by ring
    simp [toLeBytes, fromLeBytes, ih _ hx]
    omega

theorem decodeSigned_toLeBytes (w : Nat) (v half m : Int)
    (hhalf : half = 2 ^ (8 * w - 1)) (hm : m = 2 ^ (8 * w)) (hw : 0 < w)
    (h1 : -half ≤ v) (h2 : v < half) :
    decodeSigned w (toLeBytes w ((v % m).toNat)) = v := by
  have hsplit : (2 : Int) ^ (8 * w) = 2 ^ (8 * w - 1) * 2 := by
    rw [← pow_succ]
    congr 1
    omega
  have hpos : (0 : Int) < 2 ^ (8 * w) := by positivity
  have hmod0 : 0 ≤ v % m := Int.emod_nonneg v (by rw [hm]; positivity)
  have hmod1 : v % m < m := Int.emod_lt_of_pos v (by rw [hm]; exact hpos)
  have hcast : ((2 ^ (8 * w - 1) : Nat) : Int) = (2 : Int) ^ (8 * w - 1) := by
    push_cast
    ring
  have hcastw : ((256 ^ w : Nat) : Int) = (2 : Int) ^ (8 * w) := by
    push_cast
    rw [show (256 : Int) = 2 ^ 8 from by norm_num, ← pow_mul]
  have hlt : (v % m).toNat < 256 ^ w := by omega
  unfold decodeSigned
  rw [fromLeBytes_toLeBytes w _ hlt]
  rcases le_or_lt 0 v with hv | hv
  · have he : v % m = v := Int.emod_eq_of_lt hv (by omega)
    rw [he, if_pos (by omega)]
    omega
  · have hvm : v % m = v + m := by
      have hstep : (v + m) % m = v % m := Int.add_emod_self
      have hval : (v + m) % m = v + m :=
        Int.emod_eq_of_lt (by omega) (by omega)
      omega
    rw [hvm, if_neg (by omega)]
    omega

theorem interactiveFromBytes_full (bytes : List Nat) (vt : ValueType)
    (hlen : bytes.length = vt.size) :
    interactiveFromBytes bytes 0 vt
      = some (match vt with
        | .I8 => .I8 (decodeSigned 1 bytes)
        | .I16 => .I16 (decodeSigned 2 bytes)
        | .I32 => .I32 (decodeSigned 4 bytes)
        | .I64 => .I64 (decodeSigned 8 bytes)
        | .U8 => .U8 (fromLeBytes bytes)
        | .U16 => .U16 (fromLeBytes bytes)
        | .U32 => .U32 (fromLeBytes bytes)
        | .U64 => .U64 (fromLeBytes bytes)
        | .F32 => .F32 (fromLeBytes bytes)
        | .F64 => .F64 (fromLeBytes bytes)) := by
  unfold interactiveFromBytes
  rw [if_neg (by omega)]
  rw [List.drop_zero, ← hlen, List.take_length]
  cases vt <;> rfl

theorem diffChunk (base : Nat) :
    ∀ (xs ys : List Nat) (k : Nat), xs.length = ys.length →
      (List.enumFrom k (List.zipWith Prod.mk xs ys)).filterMap
        (fun p =>
          if p.2.1 ≠ p.2.2 then
            some ({ address := base + p.1, old_value := p.2.1,
                    new_value := p.2.2 } : MemoryChange)
          else none)
      = (List.range xs.length).filterMap
          (fun off =>
            match xs.get? off, ys.get? off with
            | some o, some n =>
              if o ≠ n then
                some ({ address := base + (k + off), old_value := o,
                        new_value := n } : MemoryChange)
              else none
            | _, _ => none) := by
  intro xs
  induction xs with
  | nil =>
    intro ys k h
    cases ys with
    | nil => simp
    | cons y ys => simp at h
  | cons x xs ih =>
    intro ys k h
    cases ys with
    | nil => simp at h
    | cons y ys =>
      have h2 : xs.length = ys.length := by simpa using h
      simp only [List.zipWith_cons_cons, List.enumFrom, List.filterMap_cons,
        List.length_cons]
      rw [List.range_succ_eq_map, List.filterMap_cons, List.filterMap_map]
      rw [ih ys (k + 1) h2]
      have harg :
          (List.range xs.length).filterMap
            (fun off =>
              match xs.get? off, ys.get? off with
              | some o, some n =>
                if o ≠ n then
                  some ({ address := base + (k + 1 + off), old_value := o,
                          new_value := n } : MemoryChange)
                else none
              | _, _ => none)
          = (List.range xs.length).filterMap
              ((fun off =>
                match (x :: xs).get? off, (y :: ys).get? off with
                | some o, some n =>
                  if o ≠ n then
                    some ({ address := base + (k + off), old_value := o,
                            new_value := n } : MemoryChange)
                  else none
                | _, _ => none) ∘ Nat.succ) := by
        apply List.filterMap_congr
        intro off _
        simp only [Function.comp, List.get?_cons_succ]
        have hk : k + 1 + off = k + (off + 1) := by omega
        rw [hk]
      rw [harg]
      simp [Nat.add_zero]

theorem diffSelfChunk (base : Nat) :
    ∀ (l : List Nat) (k : Nat),
      (List.enumFrom k (List.zipWith Prod.mk l l)).filterMap
        (fun p =>
          if p.2.1 ≠ p.2.2 then
            some ({ address := base + p.1, old_value := p.2.1,
                    new_value := p.2.2 } : MemoryChange)
          else none) = [] := by
  intro l
  induction l with
  | nil => intro k; simp
  | cons x xs ih =>
    intro k
    simp only [List.zipWith_cons_cons, List.enumFrom, List.filterMap_cons]
    rw [if_neg (fun hcon => hcon rfl)]
    simpa using ih (k + 1)

theorem pairwiseAddresses (base n : Nat) (g : Nat → Option MemoryChange)
    (hg : ∀ off c, g off = some c → c.address = base + off) :
    List.Pairwise (fun c1 c2 => c1.address < c2.address)
      ((List.range n).filterMap g) := by
  rw [List.pairwise_filterMap]
  refine (List.pairwise_lt_range n).imp ?_
  intro a b hab c hc d hd
  simp only [Option.mem_def] at hc hd
  rw [hg a c hc, hg b d hd]
  omega

theorem nextUnixInteresting (maps : List MemoryRegion) (cur cur2 : Nat)
    (r : MemoryRegion)
    (h : memoryRegionIteratorNextUnix maps cur = (cur2, some r)) :
    isRegionInteresting r.protect r.state = true := by
  unfold memoryRegionIteratorNextUnix at h
  split at h
  · simp at h
  · split at h
    · simp at h
    · rename_i m _
      split at h
      · rename_i hi
        have hr : r = { base_address := m.base_address, size := m.size,
                        protect := m.protect, state := m.state,
                        type_ := m.type_, image_file := none } := by
          have hsnd := congrArg Prod.snd h
          simpa using hsnd.symm
        rw [hr]
        exact hi
      · simp at h

/-! ## Claim theorems -/

/-- Claim C9: the duplicated value machinery of `values.rs` and
`interactive.rs` is extensionally equal — the two `Value::from_bytes`
functions agree on every buffer, offset and type, and the two
`apply_math_op` functions agree on every operand pair and operation
(same `Ok` value, same error, same panic behaviour). -/
theorem spec_C9 :
    (∀ (bytes : List Nat) (offset : Nat) (vt : ValueType),
        valuesFromBytes bytes offset vt = interactiveFromBytes bytes offset vt)
    ∧ (∀ (fops : FloatOps) (a b : Value) (op : MathOp),
        valuesApplyMathOp fops a b op = interactiveApplyMathOp fops a b op) := by
  constructor
  · intro bytes offset vt
    rfl
  · intro fops a b op
    rfl

/-- Claim C7: the memory-region iterator only yields regions satisfying the
interesting-region predicate — whatever the map list, the cursor, the bound
and the number of loop steps, a yielded region passes
`is_region_interesting`. -/
theorem spec_C7 (maps : List MemoryRegion) (fuel cur maxAddr cur2 : Nat)
    (r : MemoryRegion)
    (h : memoryRegionIteratorLoop maps fuel cur maxAddr = (cur2, some r)) :
    isRegionInteresting r.protect r.state = true := by
  induction fuel generalizing cur with
  | zero => simp [memoryRegionIteratorLoop] at h
  | succ fuel ih =>
    unfold memoryRegionIteratorLoop at h
    by_cases hc : cur < maxAddr
    · rw [if_pos hc] at h
      rcases hn : memoryRegionIteratorNextUnix maps cur with ⟨c2, res⟩
      cases res with
      | some r2 =>
        rw [hn] at h
        simp only [Prod.mk.injEq] at h
        have hr : r2 = r := by
          have := h.2
          simpa using this
        rw [← hr]
        exact nextUnixInteresting maps cur c2 r2 hn
      | none =>
        rw [hn] at h
        exact ih _ h
    · rw [if_neg hc] at h
      simp at h

/-- Witness for C7 at a concrete map list: one committed readable region is
yielded by the iterator and indeed satisfies the predicate. -/
theorem spec_C7_witness :
    isRegionInteresting
      { no_access := false, read := true, write := true, execute := false,
        copy_on_write := false, guarded := false, no_cache := false }
      { committed := true, free := false, reserved := false } = true :=
  spec_C7
    [{ base_address := 0, size := 16,
       protect := { no_access := false, read := true, write := true,
                    execute := false, copy_on_write := false,
                    guarded := false, no_cache := false },
       state := { committed := true, free := false, reserved := false },
       type_ := .Unknown, image_file := none }]
    1 0 4096 16
    { base_address := 0, size := 16,
      protect := { no_access := false, read := true, write := true,
                   execute := false, copy_on_write := false,
                   guarded := false, no_cache := false },
      state := { committed := true, free := false, reserved := false },
      type_ := .Unknown, image_file := none }
    (by decide)

/-- Claim C3: `diff_snapshots` returns the empty list on a base-address or
length mismatch; otherwise it returns exactly one change per differing
offset, carrying `base + offset` and the two bytes, in strictly ascending
address order; and diffing a snapshot against itself is empty. -/
theorem spec_C3 (old new : Snapshot) :
    ((old.base_address ≠ new.base_address
        ∨ old.data.length ≠ new.data.length) →
      diffSnapshots old new = [])
    ∧ (old.base_address = new.base_address →
       old.data.length = new.data.length →
      diffSnapshots old new = (List.range old.data.length).filterMap
        (fun off =>
          match old.data.get? off, new.data.get? off with
          | some o, some n =>
            if o ≠ n then
              some { address := old.base_address + off, old_value := o,
                     new_value := n }
            else none
          | _, _ => none))
    ∧ List.Pairwise (fun c1 c2 => c1.address < c2.address)
        (diffSnapshots old new)
    ∧ diffSnapshots old old = [] := by
  have hcanon : old.base_address = new.base_address →
      old.data.length = new.data.length →
      diffSnapshots old new = (List.range old.data.length).filterMap
        (fun off =>
          match old.data.get? off, new.data.get? off with
          | some o, some n =>
            if o ≠ n then
              some { address := old.base_address + off, old_value := o,
                     new_value := n }
            else none
          | _, _ => none) := by
    intro hb hl
    unfold diffSnapshots
    rw [if_neg (by push_neg; exact ⟨hb, hl⟩)]
    have hz := diffChunk old.base_address old.data new.data 0 hl
    simp only [List.enum] at *
    rw [show old.data.zip new.data
        = List.zipWith Prod.mk old.data new.data from rfl]
    rw [hz]
    apply List.filterMap_congr
    intro off _
    simp only [Nat.zero_add]
  refine ⟨?_, hcanon, ?_, ?_⟩
  · intro hne
    unfold diffSnapshots
    rw [if_pos hne]
  · by_cases hb : old.base_address = new.base_address
    · by_cases hl : old.data.length = new.data.length
      · rw [hcanon hb hl]
        apply pairwiseAddresses old.base_address
        intro off c hc
        rcases ho : old.data.get? off with _ | o <;>
          rcases hn2 : new.data.get? off with _ | n2 <;>
          rw [ho, hn2] at hc <;>
          dsimp only at hc
        · simp at hc
        · simp at hc
        · simp at hc
        · split at hc
          · injection hc with hc2
            rw [← hc2]
          · simp at hc
      · unfold diffSnapshots
        rw [if_pos (Or.inr hl)]
        exact List.Pairwise.nil
    · unfold diffSnapshots
      rw [if_pos (Or.inl hb)]
      exact List.Pairwise.nil
  · unfold diffSnapshots
    rw [if_neg (by push_neg; exact ⟨rfl, rfl⟩)]
    simp only [List.enum]
    rw [show old.data.zip old.data
        = List.zipWith Prod.mk old.data old.data from rfl]
    exact diffSelfChunk old.base_address old.data 0

/-- Witness for C3 at concrete snapshots sharing base `0x2000`: the single
differing byte yields the single change at the right address. -/
theorem spec_C3_witness :
    diffSnapshots { base_address := 8192, data := [1, 2, 3] }
        { base_address := 8192, data := [1, 9, 3] }
      = [{ address := 8193, old_value := 2, new_value := 9 }] := by
  have h := (spec_C3 { base_address := 8192, data := [1, 2, 3] }
    { base_address := 8192, data := [1, 9, 3] }).2.1 rfl rfl
  rw [h]
  decide

/-- Claim C6: for every value whose scalar fits its variant's width
(negative integers and float bit patterns included), decoding the
little-endian encoding at offset 0 with the matching type returns the value
unchanged, and the encoding has exactly `size(T)` bytes. -/
theorem spec_C6 (v : Value) (h : v.wf) :
    interactiveFromBytes (interactiveToBytes v) 0 v.valueType = some v
      ∧ (interactiveToBytes v).length = v.valueType.size := by
  cases v with
  | I8 x =>
    obtain ⟨h1, h2⟩ := h
    refine ⟨?_, ?_⟩
    · rw [show interactiveToBytes (Value.I8 x)
          = toLeBytes 1 ((x % (2 ^ 8 : Int)).toNat) from rfl,
        interactiveFromBytes_full _ _
          (by simp [toLeBytes_length, Value.valueType, ValueType.size])]
      show some (Value.I8 (decodeSigned 1
        (toLeBytes 1 ((x % (2 ^ 8 : Int)).toNat)))) = some (Value.I8 x)
      rw [decodeSigned_toLeBytes 1 x (2 ^ 7) (2 ^ 8) (by norm_num)
        (by norm_num) (by norm_num) h1 h2]
    · simp [interactiveToBytes, toLeBytes_length, Value.valueType,
        ValueType.size]
  | I16 x =>
    obtain ⟨h1, h2⟩ := h
    refine ⟨?_, ?_⟩
    · rw [show interactiveToBytes (Value.I16 x)
          = toLeBytes 2 ((x % (2 ^ 16 : Int)).toNat) from rfl,
        interactiveFromBytes_full _ _
          (by simp [toLeBytes_length, Value.valueType, ValueType.size])]
      show some (Value.I16 (decodeSigned 2
        (toLeBytes 2 ((x % (2 ^ 16 : Int)).toNat)))) = some (Value.I16 x)
      rw [decodeSigned_toLeBytes 2 x (2 ^ 15) (2 ^ 16) (by norm_num)
        (by norm_num) (by norm_num) h1 h2]
    · simp [interactiveToBytes, toLeBytes_length, Value.valueType,
        ValueType.size]
  | I32 x =>
    obtain ⟨h1, h2⟩ := h
    refine ⟨?_, ?_⟩
    · rw [show interactiveToBytes (Value.I32 x)
          = toLeBytes 4 ((x % (2 ^ 32 : Int)).toNat) from rfl,
        interactiveFromBytes_full _ _
          (by simp [toLeBytes_length, Value.valueType, ValueType.size])]
      show some (Value.I32 (decodeSigned 4
        (toLeBytes 4 ((x % (2 ^ 32 : Int)).toNat)))) = some (Value.I32 x)
      rw [decodeSigned_toLeBytes 4 x (2 ^ 31) (2 ^ 32) (by norm_num)
        (by norm_num) (by norm_num) h1 h2]
    · simp [interactiveToBytes, toLeBytes_length, Value.valueType,
        ValueType.size]
  | I64 x =>
    obtain ⟨h1, h2⟩ := h
    refine ⟨?_, ?_⟩
    · rw [show interactiveToBytes (Value.I64 x)
          = toLeBytes 8 ((x % (2 ^ 64 : Int)).toNat) from rfl,
        interactiveFromBytes_full _ _
          (by simp [toLeBytes_length, Value.valueType, ValueType.size])]
      show some (Value.I64 (decodeSigned 8
        (toLeBytes 8 ((x % (2 ^ 64 : Int)).toNat)))) = some (Value.I64 x)
      rw [decodeSigned_toLeBytes 8 x (2 ^ 63) (2 ^ 64) (by norm_num)
        (by norm_num) (by norm_num) h1 h2]
    · simp [interactiveToBytes, toLeBytes_length, Value.valueType,
        ValueType.size]
  | U8 x =>
    have hx : x < 2 ^ 8 := h
    refine ⟨?_, ?_⟩
    · rw [show interactiveToBytes (Value.U8 x) = toLeBytes 1 x from rfl,
        interactiveFromBytes_full _ _
          (by simp [toLeBytes_length, Value.valueType, ValueType.size])]
      show some (Value.U8 (fromLeBytes (toLeBytes 1 x))) = some (Value.U8 x)
      rw [fromLeBytes_toLeBytes 1 x (lt_of_lt_of_eq hx (by norm_num))]
    · simp [interactiveToBytes, toLeBytes_length, Value.valueType,
        ValueType.size]
  | U16 x =>
    have hx : x < 2 ^ 16 := h
    refine ⟨?_, ?_⟩
    · rw [show interactiveToBytes (Value.U16 x) = toLeBytes 2 x from rfl,
        interactiveFromBytes_full _ _
          (by simp [toLeBytes_length, Value.valueType, ValueType.size])]
      show some (Value.U16 (fromLeBytes (toLeBytes 2 x))) = some (Value.U16 x)
      rw [fromLeBytes_toLeBytes 2 x (lt_of_lt_of_eq hx (by norm_num))]
    · simp [interactiveToBytes, toLeBytes_length, Value.valueType,
        ValueType.size]
  | U32 x =>
    have hx : x < 2 ^ 32 := h
    refine ⟨?_, ?_⟩
    · rw [show interactiveToBytes (Value.U32 x) = toLeBytes 4 x from rfl,
        interactiveFromBytes_full _ _
          (by simp [toLeBytes_length, Value.valueType, ValueType.size])]
      show some (Value.U32 (fromLeBytes (toLeBytes 4 x))) = some (Value.U32 x)
      rw [fromLeBytes_toLeBytes 4 x (lt_of_lt_of_eq hx (by norm_num))]
    · simp [interactiveToBytes, toLeBytes_length, Value.valueType,
        ValueType.size]
  | U64 x =>
    have hx : x < 2 ^ 64 := h
    refine ⟨?_, ?_⟩
    · rw [show interactiveToBytes (Value.U64 x) = toLeBytes 8 x from rfl,
        interactiveFromBytes_full _ _
          (by simp [toLeBytes_length, Value.valueType, ValueType.size])]
      show some (Value.U64 (fromLeBytes (toLeBytes 8 x))) = some (Value.U64 x)
      rw [fromLeBytes_toLeBytes 8 x (lt_of_lt_of_eq hx (by norm_num))]
    · simp [interactiveToBytes, toLeBytes_length, Value.valueType,
        ValueType.size]
  | F32 bits =>
    have hx : bits < 2 ^ 32 := h
    refine ⟨?_, ?_⟩
    · rw [show interactiveToBytes (Value.F32 bits) = toLeBytes 4 bits from rfl,
        interactiveFromBytes_full _ _
          (by simp [toLeBytes_length, Value.valueType, ValueType.size])]
      show some (Value.F32 (fromLeBytes (toLeBytes 4 bits)))
        = some (Value.F32 bits)
      rw [fromLeBytes_toLeBytes 4 bits (lt_of_lt_of_eq hx (by norm_num))]
    · simp [interactiveToBytes, toLeBytes_length, Value.valueType,
        ValueType.size]
  | F64 bits =>
    have hx : bits < 2 ^ 64 := h
    refine ⟨?_, ?_⟩
    · rw [show interactiveToBytes (Value.F64 bits) = toLeBytes 8 bits from rfl,
        interactiveFromBytes_full _ _
          (by simp [toLeBytes_length, Value.valueType, ValueType.size])]
      show some (Value.F64 (fromLeBytes (toLeBytes 8 bits)))
        = some (Value.F64 bits)
      rw [fromLeBytes_toLeBytes 8 bits (lt_of_lt_of_eq hx (by norm_num))]
    · simp [interactiveToBytes, toLeBytes_length, Value.valueType,
        ValueType.size]

/-- Witness for C6 at a negative `I16` scalar. -/
theorem spec_C6_witness :
    interactiveFromBytes (interactiveToBytes (Value.I16 (-2))) 0
        (Value.I16 (-2)).valueType = some (Value.I16 (-2))
      ∧ (interactiveToBytes (Value.I16 (-2))).length
          = (Value.I16 (-2)).valueType.size :=
  spec_C6 (Value.I16 (-2)) (by refine ⟨?_, ?_⟩ <;> norm_num)

/-- Claim C2 (amended): for every integer value type and in-range scalars,
`apply_math_op` returns `Ok` of the same variant with wrapping
(mod `2^width`) semantics — for `Add`, `Subtract`, `Multiply`
unconditionally, and for `Divide` whenever the divisor is nonzero (division
truncates toward zero). A zero integer divisor makes the underlying
`wrapping_div` panic, so totality stops there (see the counterexample). -/
theorem spec_C2 (fops : FloatOps) (t : ValueType) (x y : Int) (op : MathOp)
    (ht : t.isInteger = true) (hx : intInRange t x) (hy : intInRange t y)
    (hdiv : op = .Divide → y ≠ 0) :
    interactiveApplyMathOp fops (mkIntValue t x) (mkIntValue t y) op
      = .ok (wrapIntoType t (exactIntOp op x y)) := by
  cases t with
  | F32 => simp [ValueType.isInteger] at ht
  | F64 => simp [ValueType.isInteger] at ht
  | I8 =>
    cases op with
    | Add => rfl
    | Subtract => rfl
    | Multiply => rfl
    | Divide =>
      have hy0 : y ≠ 0 := hdiv rfl
      simp [interactiveApplyMathOp, mkIntValue, wrappingDivI, hy0,
        wrapIntoType, exactIntOp]
  | I16 =>
    cases op with
    | Add => rfl
    | Subtract => rfl
    | Multiply => rfl
    | Divide =>
      have hy0 : y ≠ 0 := hdiv rfl
      simp [interactiveApplyMathOp, mkIntValue, wrappingDivI, hy0,
        wrapIntoType, exactIntOp]
  | I32 =>
    cases op with
    | Add => rfl
    | Subtract => rfl
    | Multiply => rfl
    | Divide =>
      have hy0 : y ≠ 0 := hdiv rfl
      simp [interactiveApplyMathOp, mkIntValue, wrappingDivI, hy0,
        wrapIntoType, exactIntOp]
  | I64 =>
    cases op with
    | Add => rfl
    | Subtract => rfl
    | Multiply => rfl
    | Divide =>
      have hy0 : y ≠ 0 := hdiv rfl
      simp [interactiveApplyMathOp, mkIntValue, wrappingDivI, hy0,
        wrapIntoType, exactIntOp]
  | U8 =>
    obtain ⟨hx0, hx1⟩ := hx
    obtain ⟨hy0, hy1⟩ := hy
    cases op with
    | Add =>
      simp only [interactiveApplyMathOp, mkIntValue, wrapIntoType,
        exactIntOp, wrappingAddU, MathResult.ok.injEq, Value.U8.injEq]
      norm_num
      omega
    | Subtract =>
      simp only [interactiveApplyMathOp, mkIntValue, wrapIntoType,
        exactIntOp, wrappingSubU, MathResult.ok.injEq, Value.U8.injEq]
      norm_num
      omega
    | Multiply =>
      have hxy : ((x.toNat * y.toNat : Nat) : Int) = x * y := by
        push_cast
        rw [Int.toNat_of_nonneg hx0, Int.toNat_of_nonneg hy0]
      simp only [interactiveApplyMathOp, mkIntValue, wrapIntoType,
        exactIntOp, wrappingMulU, MathResult.ok.injEq, Value.U8.injEq]
      norm_num
      omega
    | Divide =>
      have hyne : y ≠ 0 := hdiv rfl
      have hyt : ¬y.toNat = 0 := by omega
      have hd : ((x.toNat / y.toNat : Nat) : Int) = x.tdiv y := by
        rw [Int.ofNat_tdiv, Int.toNat_of_nonneg hx0, Int.toNat_of_nonneg hy0]
      have hq : x.toNat / y.toNat ≤ x.toNat := Nat.div_le_self _ _
      norm_num at hx1
      simp only [interactiveApplyMathOp, mkIntValue, wrapIntoType,
        exactIntOp, wrappingDivU, hyt, if_false, MathResult.ok.injEq,
        Value.U8.injEq]
      norm_num
      generalize hgen : x.toNat / y.toNat = q at hd hq ⊢
      generalize hgen2 : x.tdiv y = t at hd ⊢
      omega
  | U16 =>
    obtain ⟨hx0, hx1⟩ := hx
    obtain ⟨hy0, hy1⟩ := hy
    cases op with
    | Add =>
      simp only [interactiveApplyMathOp, mkIntValue, wrapIntoType,
        exactIntOp, wrappingAddU, MathResult.ok.injEq, Value.U16.injEq]
      norm_num
      omega
    | Subtract =>
      simp only [interactiveApplyMathOp, mkIntValue, wrapIntoType,
        exactIntOp, wrappingSubU, MathResult.ok.injEq, Value.U16.injEq]
      norm_num
      omega
    | Multiply =>
      have hxy : ((x.toNat * y.toNat : Nat) : Int) = x * y := by
        push_cast
        rw [Int.toNat_of_nonneg hx0, Int.toNat_of_nonneg hy0]
      simp only [interactiveApplyMathOp, mkIntValue, wrapIntoType,
        exactIntOp, wrappingMulU, MathResult.ok.injEq, Value.U16.injEq]
      norm_num
      omega
    | Divide =>
      have hyne : y ≠ 0 := hdiv rfl
      have hyt : ¬y.toNat = 0 := by omega
      have hd : ((x.toNat / y.toNat : Nat) : Int) = x.tdiv y := by
        rw [Int.ofNat_tdiv, Int.toNat_of_nonneg hx0, Int.toNat_of_nonneg hy0]
      have hq : x.toNat / y.toNat ≤ x.toNat := Nat.div_le_self _ _
      norm_num at hx1
      simp only [interactiveApplyMathOp, mkIntValue, wrapIntoType,
        exactIntOp, wrappingDivU, hyt, if_false, MathResult.ok.injEq,
        Value.U16.injEq]
      norm_num
      generalize hgen : x.toNat / y.toNat = q at hd hq ⊢
      generalize hgen2 : x.tdiv y = t at hd ⊢
      omega
  | U32 =>
    obtain ⟨hx0, hx1⟩ := hx
    obtain ⟨hy0, hy1⟩ := hy
    cases op with
    | Add =>
      simp only [interactiveApplyMathOp, mkIntValue, wrapIntoType,
        exactIntOp, wrappingAddU, MathResult.ok.injEq, Value.U32.injEq]
      norm_num
      omega
    | Subtract =>
      simp only [interactiveApplyMathOp, mkIntValue, wrapIntoType,
        exactIntOp, wrappingSubU, MathResult.ok.injEq, Value.U32.injEq]
      norm_num
      omega
    | Multiply =>
      have hxy : ((x.toNat * y.toNat : Nat) : Int) = x * y := by
        push_cast
        rw [Int.toNat_of_nonneg hx0, Int.toNat_of_nonneg hy0]
      simp only [interactiveApplyMathOp, mkIntValue, wrapIntoType,
        exactIntOp, wrappingMulU, MathResult.ok.injEq, Value.U32.injEq]
      norm_num
      omega
    | Divide =>
      have hyne : y ≠ 0 := hdiv rfl
      have hyt : ¬y.toNat = 0 := by omega
      have hd : ((x.toNat / y.toNat : Nat) : Int) = x.tdiv y := by
        rw [Int.ofNat_tdiv, Int.toNat_of_nonneg hx0, Int.toNat_of_nonneg hy0]
      have hq : x.toNat / y.toNat ≤ x.toNat := Nat.div_le_self _ _
      norm_num at hx1
      simp only [interactiveApplyMathOp, mkIntValue, wrapIntoType,
        exactIntOp, wrappingDivU, hyt, if_false, MathResult.ok.injEq,
        Value.U32.injEq]
      norm_num
      generalize hgen : x.toNat / y.toNat = q at hd hq ⊢
      generalize hgen2 : x.tdiv y = t at hd ⊢
      omega
  | U64 =>
    obtain ⟨hx0, hx1⟩ := hx
    obtain ⟨hy0, hy1⟩ := hy
    cases op with
    | Add =>
      simp only [interactiveApplyMathOp, mkIntValue, wrapIntoType,
        exactIntOp, wrappingAddU, MathResult.ok.injEq, Value.U64.injEq]
      norm_num
      omega
    | Subtract =>
      simp only [interactiveApplyMathOp, mkIntValue, wrapIntoType,
        exactIntOp, wrappingSubU, MathResult.ok.injEq, Value.U64.injEq]
      norm_num
      omega
    | Multiply =>
      have hxy : ((x.toNat * y.toNat : Nat) : Int) = x * y := by
        push_cast
        rw [Int.toNat_of_nonneg hx0, Int.toNat_of_nonneg hy0]
      simp only [interactiveApplyMathOp, mkIntValue, wrapIntoType,
        exactIntOp, wrappingMulU, MathResult.ok.injEq, Value.U64.injEq]
      norm_num
      omega
    | Divide =>
      have hyne : y ≠ 0 := hdiv rfl
      have hyt : ¬y.toNat = 0 := by omega
      have hd : ((x.toNat / y.toNat : Nat) : Int) = x.tdiv y := by
        rw [Int.ofNat_tdiv, Int.toNat_of_nonneg hx0, Int.toNat_of_nonneg hy0]
      have hq : x.toNat / y.toNat ≤ x.toNat := Nat.div_le_self _ _
      norm_num at hx1
      simp only [interactiveApplyMathOp, mkIntValue, wrapIntoType,
        exactIntOp, wrappingDivU, hyt, if_false, MathResult.ok.injEq,
        Value.U64.injEq]
      norm_num
      generalize hgen : x.toNat / y.toNat = q at hd hq ⊢
      generalize hgen2 : x.tdiv y = t at hd ⊢
      omega

/-- Witness for C2 at the spec's own wrap example: `U8(255) + U8(1)` is
`Ok(U8(0))`. -/
theorem spec_C2_witness :
    interactiveApplyMathOp fopsZero (mkIntValue .U8 255) (mkIntValue .U8 1)
        .Add = .ok (wrapIntoType .U8 (exactIntOp .Add 255 1))
      ∧ wrapIntoType .U8 (exactIntOp .Add 255 1) = Value.U8 0 := by
  refine ⟨?_, ?_⟩
  · exact spec_C2 fopsZero .U8 255 1 .Add rfl (by norm_num [intInRange])
      (by norm_num [intInRange]) (fun hcon => by cases hcon)
  · decide

/-- Counterexample to C2 as stated: integer division by zero is not defined
by wrapping — `apply_math_op(U8(1), U8(0), Divide)` reaches
`u8::wrapping_div` with a zero divisor, which panics, so the function is not
total on `Divide`. -/
theorem spec_C2_cx :
    interactiveApplyMathOp fopsZero (Value.U8 1) (Value.U8 0) MathOp.Divide
      = MathResult.panic := rfl

theorem interactiveFromBytes_eq_decodeValue (bytes : List Nat) (offset : Nat)
    (vt : ValueType) (h : offset + vt.size ≤ bytes.length) :
    interactiveFromBytes bytes offset vt = some (decodeValue bytes offset vt) := by
  unfold interactiveFromBytes decodeValue
  rw [if_neg (by omega)]

theorem scanCountIff (ts len A k : Nat) (hA : 0 < A) :
    k < (if ts ≤ len then (len - ts) / A + 1 else 0) ↔ k * A + ts ≤ len := by
  split
  · rename_i hts
    rw [Nat.lt_succ_iff, Nat.le_div_iff_mul_le hA]
    omega
  · rename_i hts
    constructor
    · intro hk
      omega
    · intro hk
      omega

theorem scanRegionLoop_spec (vt : ValueType) (A base : Nat)
    (buffer : List Nat) (hA : 0 < A) :
    ∀ (fuel j : Nat), buffer.length + 1 ≤ fuel * A + j * A →
      scanRegionLoop vt A base buffer fuel (j * A)
        = (List.range
            ((if vt.size ≤ buffer.length
              then (buffer.length - vt.size) / A + 1 else 0) - j)).map
            (fun i =>
              { address := base + (j + i) * A,
                current_value := decodeValue buffer ((j + i) * A) vt,
                previous_value := none }) := by
  intro fuel
  induction fuel with
  | zero =>
    intro j hj
    have hja : buffer.length + 1 ≤ j * A := by
      have hz : 0 * A = 0 := Nat.zero_mul A
      omega
    have hcnt : (if vt.size ≤ buffer.length
        then (buffer.length - vt.size) / A + 1 else 0) ≤ j := by
      by_contra hlt
      push_neg at hlt
      have := (scanCountIff vt.size buffer.length A j hA).mp hlt
      omega
    rw [Nat.sub_eq_zero_of_le hcnt]
    simp [scanRegionLoop]
  | succ fuel ih =>
    intro j hj
    by_cases hin : j * A + vt.size ≤ buffer.length
    · have hjcnt : j < (if vt.size ≤ buffer.length
          then (buffer.length - vt.size) / A + 1 else 0) :=
        (scanCountIff vt.size buffer.length A j hA).mpr hin
      have hdec := interactiveFromBytes_eq_decodeValue buffer (j * A) vt hin
      unfold scanRegionLoop
      rw [if_pos hin, if_pos (Nat.mul_mod_left j A), hdec]
      have hstep : j * A + A = (j + 1) * A := by ring
      have hfuel : buffer.length + 1 ≤ fuel * A + (j + 1) * A := by
        have hr : fuel * A + (j + 1) * A = (fuel + 1) * A + j * A := by ring
        omega
      rw [hstep, ih (j + 1) hfuel]
      have hsub : (if vt.size ≤ buffer.length
            then (buffer.length - vt.size) / A + 1 else 0) - j
          = ((if vt.size ≤ buffer.length
            then (buffer.length - vt.size) / A + 1 else 0) - (j + 1)) + 1 := by
        omega
      have htail :
          (List.range
              ((if vt.size ≤ buffer.length
                then (buffer.length - vt.size) / A + 1 else 0) - (j + 1))).map
            ((fun i =>
              ({ address := base + (j + i) * A,
                 current_value := decodeValue buffer ((j + i) * A) vt,
                 previous_value := none } : MatchedAddress)) ∘ Nat.succ)
          = (List.range
              ((if vt.size ≤ buffer.length
                then (buffer.length - vt.size) / A + 1 else 0) - (j + 1))).map
              (fun i =>
                ({ address := base + (j + 1 + i) * A,
                   current_value := decodeValue buffer ((j + 1 + i) * A) vt,
                   previous_value := none } : MatchedAddress)) := by
        apply List.map_congr_left
        intro i _
        simp only [Function.comp]
        have hji : j + (i + 1) = j + 1 + i := by omega
        rw [hji]
      rw [hsub, List.range_succ_eq_map, List.map_cons, List.map_map, htail]
      simp
    · have hjcnt : (if vt.size ≤ buffer.length
          then (buffer.length - vt.size) / A + 1 else 0) ≤ j := by
        by_contra hlt
        push_neg at hlt
        exact hin ((scanCountIff vt.size buffer.length A j hA).mp hlt)
      unfold scanRegionLoop
      rw [if_neg hin, Nat.sub_eq_zero_of_le hjcnt]
      simp

/-- Claim C5: over a single fully readable region of `N` bytes with value
type `T` and positive alignment `A`, `initial_scan` discards prior matches
and produces exactly `(N − size(T))/A + 1` matches when `size(T) ≤ N` and
none otherwise; the `k`-th match sits at `base + k·A`, carries the value
decoded little-endian at offset `k·A`, and has no previous value. -/
theorem spec_C5 (readMem : Nat → Nat → List Nat) (st : InteractiveScanner)
    (r : MemoryRegion) (N A : Nat) (T : ValueType)
    (hreg : st.regions = [r]) (hsize : r.size = N) (hvt : st.value_type = T)
    (hal : st.alignment = A) (hA : 0 < A)
    (hbuf : (readMem r.base_address N).length = N) :
    (initialScan readMem st).2
        = (if T.size ≤ N then (N - T.size) / A + 1 else 0)
      ∧ (initialScan readMem st).1.matches_
          = (List.range (if T.size ≤ N then (N - T.size) / A + 1 else 0)).map
              (fun k =>
                { address := r.base_address + k * A,
                  current_value :=
                    decodeValue (readMem r.base_address N) (k * A) T,
                  previous_value := none })
      ∧ ∀ k, k < (if T.size ≤ N then (N - T.size) / A + 1 else 0) →
          interactiveFromBytes (readMem r.base_address N) (k * A) T
            = some (decodeValue (readMem r.base_address N) (k * A) T) := by
  have hcore : st.regions.foldl
      (fun acc region =>
        if (readMem region.base_address region.size).length < region.size
        then acc
        else
          acc ++ scanRegionLoop st.value_type st.alignment region.base_address
            (readMem region.base_address region.size)
            ((readMem region.base_address region.size).length + 1) 0)
      []
      = scanRegionLoop T A r.base_address (readMem r.base_address N)
          (N + 1) 0 := by
    rw [hreg]
    simp only [List.foldl_cons, List.foldl_nil]
    rw [hsize, hvt, hal]
    rw [if_neg (by omega), hbuf]
    simp
  have hloop : scanRegionLoop T A r.base_address (readMem r.base_address N)
      (N + 1) 0
      = (List.range (if T.size ≤ N then (N - T.size) / A + 1 else 0)).map
          (fun k =>
            { address := r.base_address + k * A,
              current_value :=
                decodeValue (readMem r.base_address N) (k * A) T,
              previous_value := none }) := by
    have hthis := scanRegionLoop_spec T A r.base_address
      (readMem r.base_address N) hA (N + 1) 0
      (by
        have h1 : (N + 1) * 1 ≤ (N + 1) * A := Nat.mul_le_mul_left (N + 1) hA
        have h0 : 0 * A = 0 := Nat.zero_mul A
        omega)
    rw [Nat.zero_mul, hbuf] at hthis
    rw [hthis]
    simp only [Nat.zero_add, Nat.sub_zero]
  have hms : (initialScan readMem st).1.matches_
      = (List.range (if T.size ≤ N then (N - T.size) / A + 1 else 0)).map
          (fun k =>
            { address := r.base_address + k * A,
              current_value :=
                decodeValue (readMem r.base_address N) (k * A) T,
              previous_value := none }) := by
    show st.regions.foldl _ [] = _
    rw [hcore, hloop]
  refine ⟨?_, hms, ?_⟩
  · show (st.regions.foldl _ []).length = _
    rw [hcore, hloop]
    simp
  · intro k hk
    have hin : k * A + T.size ≤ N := (scanCountIff T.size N A k hA).mp hk
    exact interactiveFromBytes_eq_decodeValue _ _ _ (by omega)

/-- Witness for C5 at the spec's scenario S5: 16 fully readable zero bytes,
`I32` values, alignment 4, yield 4 matches at offsets 0, 4, 8, 12. -/
theorem spec_C5_witness :
    (initialScan readZeros
        { regions := [regionA], matches_ := [],
          value_type := .I32, alignment := 4 }).2
      = (if (ValueType.I32).size ≤ 4 then (4 - (ValueType.I32).size) / 4 + 1
         else 0) :=
  (spec_C5 readZeros
    { regions := [regionA], matches_ := [], value_type := .I32,
      alignment := 4 }
    regionA 4 4 .I32 rfl rfl rfl rfl (by norm_num) (by decide)).1

/-- Claim C10: filtering with a comparison operation but no comparison value
keeps nothing — the match list empties, every monitored region is dropped,
and the call returns 0, whatever the target memory holds. -/
theorem spec_C10 (fops : FloatOps) (readMem : Nat → Nat → List Nat)
    (st : InteractiveScanner) (op : FilterOp)
    (hop : op = .Equals ∨ op = .LessThan ∨ op = .GreaterThan) :
    filterScan fops readMem st op none
      = ({ st with matches_ := [], regions := [] }, 0) := by
  have hnone : ∀ m, filterKeep fops readMem st.value_type op none m = none := by
    intro m
    unfold filterKeep
    by_cases hb : (readMem m.address st.value_type.size).length
        < st.value_type.size
    · rw [if_pos hb]
    · rw [if_neg hb]
      rcases hcv : interactiveFromBytes (readMem m.address st.value_type.size)
          0 st.value_type with _ | current
      · rfl
      · rcases hop with h | h | h <;> subst h <;> rfl
  have hnil : st.matches_.filterMap
      (filterKeep fops readMem st.value_type op none) = [] :=
    List.filterMap_eq_nil_iff.mpr (fun a _ => hnone a)
  unfold filterScan
  simp only [hnil]
  unfold cleanupEmptyRegions
  rw [if_pos (by rfl)]
  rfl

/-- Witness for C10 at a concrete scanner with one region and one match. -/
theorem spec_C10_witness :
    filterScan fopsZero readZeros
        { regions := [regionA],
          matches_ := [{ address := 0, current_value := Value.U8 0,
                         previous_value := none }],
          value_type := .U8, alignment := 1 }
        .Equals none
      = ({ regions := [], matches_ := [], value_type := .U8,
           alignment := 1 }, 0) :=
  spec_C10 fopsZero readZeros
    { regions := [regionA],
      matches_ := [{ address := 0, current_value := Value.U8 0,
                     previous_value := none }],
      value_type := .U8, alignment := 1 }
    .Equals (Or.inl rfl)

theorem find?FilterNe (key k : Nat) (h : k ≠ key)
    (m : List (Nat × MappedMemory)) :
    (m.filter (fun p => p.1 ≠ key)).find? (fun p => p.1 = k)
      = m.find? (fun p => p.1 = k) := by
  induction m with
  | nil => rfl
  | cons p rest ih =>
    by_cases hp : p.1 = key
    · rw [List.filter_cons_of_neg (by simp [hp])]
      rw [List.find?_cons_of_neg _ (by simp [hp, Ne.symm h])]
      exact ih
    · rw [List.filter_cons_of_pos (by simp [hp])]
      by_cases hpk : p.1 = k
      · rw [List.find?_cons_of_pos _ (by simp [hpk]),
          List.find?_cons_of_pos _ (by simp [hpk])]
      · rw [List.find?_cons_of_neg _ (by simp [hpk]),
          List.find?_cons_of_neg _ (by simp [hpk])]
        exact ih

theorem lookupInsertNe (key k : Nat) (v : MappedMemory)
    (m : List (Nat × MappedMemory)) (h : k ≠ key) :
    lookupMapping (insertMapping key v m) k = lookupMapping m k := by
  unfold lookupMapping insertMapping
  rw [List.find?_cons_of_neg _ (by simp [Ne.symm h])]
  rw [find?FilterNe key k h m]

/-- Claim C4 (amended): `map_region` performs no overlap check — whenever
the full region is readable it succeeds, inserting the mapping keyed by its
remote base address (replacing any previous mapping at that exact base and
leaving every other key untouched), regardless of any overlap with existing
mappings. Overlapping mappings with distinct bases therefore coexist (see
the counterexample). -/
theorem spec_C4 (readMem : Nat → Nat → List Nat)
    (mappings : List (Nat × MappedMemory)) (region : MemoryRegion)
    (hread : (readMem region.base_address region.size).length = region.size) :
    mapperMapRegion readMem mappings region
      = some (insertMapping region.base_address
          { remote_region := region,
            data := readMem region.base_address region.size } mappings)
    ∧ lookupMapping (insertMapping region.base_address
          { remote_region := region,
            data := readMem region.base_address region.size } mappings)
        region.base_address
      = some { remote_region := region,
               data := readMem region.base_address region.size }
    ∧ ∀ k, k ≠ region.base_address →
        lookupMapping (insertMapping region.base_address
            { remote_region := region,
              data := readMem region.base_address region.size } mappings) k
          = lookupMapping mappings k := by
  refine ⟨?_, ?_, ?_⟩
  · unfold mapperMapRegion mappedMemoryMapRegion
    rw [if_neg (by omega)]
  · unfold lookupMapping insertMapping
    rw [List.find?_cons_of_pos _ (by simp)]
    rfl
  · intro k hk
    exact lookupInsertNe region.base_address k _ mappings hk

/-- Witness for C4 at a fully readable region over the zero memory model. -/
theorem spec_C4_witness :
    mapperMapRegion readZeros [] regionA
      = some (insertMapping regionA.base_address
          { remote_region := regionA,
            data := readZeros regionA.base_address regionA.size } []) :=
  (spec_C4 readZeros [] regionA (by decide)).1

/-- Counterexample to C4 as stated: mapping `regionB` (base 2, size 4) after
`regionA` (base 0, size 4) succeeds even though the two regions overlap, and
both overlapping mappings then live in the cache simultaneously. -/
theorem spec_C4_cx :
    mapperMapRegion readZeros [] regionA
        = some [(0, { remote_region := regionA, data := [0, 0, 0, 0] })]
      ∧ mapperMapRegion readZeros
            [(0, { remote_region := regionA, data := [0, 0, 0, 0] })] regionB
        = some [(2, { remote_region := regionB, data := [0, 0, 0, 0] }),
                (0, { remote_region := regionA, data := [0, 0, 0, 0] })]
      ∧ regionsOverlap regionA regionB = true
      ∧ lookupMapping
          [(2, { remote_region := regionB, data := [0, 0, 0, 0] }),
           (0, { remote_region := regionA, data := [0, 0, 0, 0] })] 0
          = some { remote_region := regionA, data := [0, 0, 0, 0] }
      ∧ lookupMapping
          [(2, { remote_region := regionB, data := [0, 0, 0, 0] }),
           (0, { remote_region := regionA, data := [0, 0, 0, 0] })] 2
          = some { remote_region := regionB, data := [0, 0, 0, 0] } := by
  refine ⟨?_, ?_, ?_, ?_, ?_⟩ <;> decide

theorem hexDigitFacts (c : Char) (d : Nat) (h : hexDigit? c = some d) :
    utf8Len c = 1 ∧ c ≠ '+' ∧ c ≠ '-' := by
  have hne1 : c ≠ '+' := by
    intro he
    rw [he, show hexDigit? '+' = none from by decide] at h
    cases h
  have hne2 : c ≠ '-' := by
    intro he
    rw [he, show hexDigit? '-' = none from by decide] at h
    cases h
  have hlt : c.toNat < 128 := by
    unfold hexDigit? at h
    split_ifs at h with h1 h2 h3
    · omega
    · omega
    · omega
  refine ⟨?_, hne1, hne2⟩
  unfold utf8Len
  rw [if_pos (by omega)]

theorem sumUtf8Ascii : ∀ (l : List Char), (∀ c ∈ l, utf8Len c = 1) →
    (l.map utf8Len).sum = l.length := by
  intro l
  induction l with
  | nil => intro _; rfl
  | cons c rest ih =>
    intro h
    simp only [List.map_cons, List.sum_cons, List.length_cons,
      h c (by simp)]
    rw [ih (fun c hc => h c (by simp [hc]))]
    omega

theorem hexChunksAllHex : ∀ (n : Nat) (l : List Char), l.length ≤ n →
    (∀ c ∈ l, (hexDigit? c).isSome) → l.length % 2 = 0 →
    hexChunks l = .ok (pairDecode l) := by
  intro n
  induction n with
  | zero =>
    intro l hlen _ _
    have hl : l = [] := List.length_eq_zero.mp (by omega)
    subst hl
    rfl
  | succ n ih =>
    intro l hlen hhex heven
    match l with
    | [] => rfl
    | [c] => simp at heven
    | c1 :: c2 :: rest =>
      obtain ⟨d1, hd1⟩ := Option.isSome_iff_exists.mp (hhex c1 (by simp))
      obtain ⟨d2, hd2⟩ := Option.isSome_iff_exists.mp (hhex c2 (by simp))
      obtain ⟨hu1, hp1, hm1⟩ := hexDigitFacts c1 d1 hd1
      obtain ⟨hu2, hp2, hm2⟩ := hexDigitFacts c2 d2 hd2
      have hrest : hexChunks rest = .ok (pairDecode rest) := by
        apply ih rest (by simp at hlen; omega)
          (fun c hc => hhex c (by simp [hc]))
        simp only [List.length_cons] at heven
        omega
      simp [hexChunks, hu1, hu2, fromStrRadix2, hp1, hm1, hd1, hd2, hrest,
        pairDecode]

theorem hexChunksAsciiNoPanic : ∀ (n : Nat) (l : List Char), l.length ≤ n →
    (∀ c ∈ l, utf8Len c = 1) → hexChunks l ≠ .panic := by
  intro n
  induction n with
  | zero =>
    intro l hlen _
    have hl : l = [] := List.length_eq_zero.mp (by omega)
    subst hl
    simp [hexChunks]
  | succ n ih =>
    intro l hlen hascii
    match l with
    | [] => simp [hexChunks]
    | [c] =>
      have hc := hascii c (by simp)
      simp [hexChunks, hc]
    | c1 :: c2 :: rest =>
      have hc1 := hascii c1 (by simp)
      have hc2 := hascii c2 (by simp)
      have hrest := ih rest (by simp at hlen; omega)
        (fun c hc => hascii c (by simp [hc]))
      rcases hfs : fromStrRadix2 c1 c2 with _ | b
      · simp [hexChunks, hc1, hc2, hfs]
      · rcases hr : hexChunks rest with bs | _ | _
        · simp [hexChunks, hc1, hc2, hfs, hr]
        · simp [hexChunks, hc1, hc2, hfs, hr]
        · exact absurd hr hrest

/-- Claim C8 (amended): `parse_hex_pattern` strips Unicode whitespace and
parses consecutive two-byte chunks with `u8::from_str_radix(_, 16)`. When
every remaining character is a hex digit it returns the pair-decoded bytes
on even length and an error on odd length; on any ASCII-only input it never
panics (the panic requires a multi-byte character straddling a chunk
boundary); the three concrete scenarios of the spec hold. The claim's
"fails on any non-hex character" is refuted by the counterexample: a chunk
may carry a leading `+` sign, which the unsigned `from_str_radix` accepts
(a leading `-` is still rejected for unsigned types). -/
theorem spec_C8 :
    (∀ s : List Char,
        (∀ c ∈ s.filter (fun c => !isRustWhitespace c),
          (hexDigit? c).isSome) →
        ((s.filter (fun c => !isRustWhitespace c)).length % 2 = 0 →
          parseHexPattern s
            = .ok (pairDecode (s.filter (fun c => !isRustWhitespace c))))
        ∧ ((s.filter (fun c => !isRustWhitespace c)).length % 2 ≠ 0 →
          parseHexPattern s = .err))
    ∧ (∀ s : List Char, (∀ c ∈ s, c.toNat < 128) →
        parseHexPattern s ≠ .panic)
    ∧ parseHexPattern "4D 5A 90 00".toList = .ok [0x4D, 0x5A, 0x90, 0x00]
    ∧ parseHexPattern "deadbeef".toList = .ok [0xDE, 0xAD, 0xBE, 0xEF]
    ∧ parseHexPattern "ABC".toList = .err := by
  refine ⟨?_, ?_, by decide, by decide, by decide⟩
  · intro s hhex
    have hall1 : ∀ c ∈ s.filter (fun c => !isRustWhitespace c),
        utf8Len c = 1 := by
      intro c hc
      obtain ⟨d, hd⟩ := Option.isSome_iff_exists.mp (hhex c hc)
      exact (hexDigitFacts c d hd).1
    have hsum := sumUtf8Ascii _ hall1
    constructor
    · intro heven
      unfold parseHexPattern
      rw [hsum, if_neg (by omega)]
      exact hexChunksAllHex _ _ le_rfl hhex heven
    · intro hodd
      unfold parseHexPattern
      rw [hsum, if_pos (by omega)]
  · intro s hascii
    have hall1 : ∀ c ∈ s.filter (fun c => !isRustWhitespace c),
        utf8Len c = 1 := by
      intro c hc
      have hcs : c ∈ s := (List.mem_filter.mp hc).1
      unfold utf8Len
      rw [if_pos (hascii c hcs)]
    have hsum := sumUtf8Ascii _ hall1
    unfold parseHexPattern
    rw [hsum]
    split
    · simp
    · exact hexChunksAsciiNoPanic _ _ le_rfl hall1

/-- Witness for C8 at the plain input `"ab"`. -/
theorem spec_C8_witness :
    parseHexPattern "ab".toList
      = .ok (pairDecode ("ab".toList.filter (fun c => !isRustWhitespace c))) :=
  (spec_C8.1 "ab".toList (by decide)).1 (by decide)

/-- Counterexample to C8 as stated: `"+1"` contains the non-hex character
`+` after whitespace stripping, yet parsing succeeds with `[0x01]` because
`u8::from_str_radix` accepts a leading sign. -/
theorem spec_C8_cx :
    parseHexPattern "+1".toList = .ok [1]
      ∧ parseHexPattern "+1".toList ≠ .err := by
  refine ⟨by decide, by decide⟩

/-- Claim C1: for a matched address present in all three checkpoints with
same-variant values (so both deltas exist), whose live value still decodes,
`filter_checkpoint_relative` keeps the address exactly when
`within_margin(delta1, delta2, margin)` holds, storing the re-decoded live
value as the new current value. Settled against the spec-modelled
checkpoint machinery (the implementation is absent from `src/`). -/
theorem spec_C1 (fops : FloatOps) (live : Nat → Option Value)
    (ms : List MatchedAddress) (cp1 cp2 cp3 : List (Nat × Value)) (margin : ℚ)
    (ma : MatchedAddress) (v1 v2 v3 d1 d2 w : Value)
    (hmem : ma ∈ ms)
    (huniq : ∀ m2 ∈ ms, m2.address = ma.address → m2 = ma)
    (h1 : lookupCheckpoint cp1 ma.address = some v1)
    (h2 : lookupCheckpoint cp2 ma.address = some v2)
    (h3 : lookupCheckpoint cp3 ma.address = some v3)
    (hd1 : valueSubtract fops v2 v1 = some d1)
    (hd2 : valueSubtract fops v3 v2 = some d2)
    (hw : live ma.address = some w) :
    (withinMargin (valueToRat fops d1) (valueToRat fops d2) margin = true →
      { ma with current_value := w }
        ∈ filterCheckpointRelative fops live ms cp1 cp2 cp3 margin)
    ∧ (withinMargin (valueToRat fops d1) (valueToRat fops d2) margin = false →
      ∀ m2 ∈ filterCheckpointRelative fops live ms cp1 cp2 cp3 margin,
        m2.address ≠ ma.address) := by
  constructor
  · intro hin
    unfold filterCheckpointRelative
    refine List.mem_filterMap.mpr ⟨ma, hmem, ?_⟩
    unfold checkpointKeep
    rw [h1, h2, h3]
    dsimp only
    rw [hd1, hd2]
    dsimp only
    rw [if_pos hin, hw]
  · intro hout m2 hm2 heq
    obtain ⟨m0, hm0mem, hf⟩ :=
      List.mem_filterMap.mp (by exact hm2 :
        m2 ∈ ms.filterMap (checkpointKeep fops live cp1 cp2 cp3 margin))
    have haddr : m2.address = m0.address := by
      unfold checkpointKeep at hf
      repeat' split at hf
      all_goals cases hf
      all_goals rfl
    have hm0addr : m0.address = ma.address := by
      rw [← haddr]
      exact heq
    have hm0ma : m0 = ma := huniq m0 hm0mem hm0addr
    subst hm0ma
    unfold checkpointKeep at hf
    rw [h1, h2, h3] at hf
    dsimp only at hf
    rw [hd1, hd2] at hf
    dsimp only at hf
    rw [if_neg (by simp [hout])] at hf
    cases hf

/-- Witness for C1 at the spec's scenario S6: checkpoint values 100, 110,
120 at one address give equal deltas, within a 0% margin, so the address is
kept with the re-decoded live value 120. -/
theorem spec_C1_witness :
    ({ address := 4096, current_value := Value.I32 120,
       previous_value := none } : MatchedAddress)
      ∈ filterCheckpointRelative fopsZero
          (fun a => if a = 4096 then some (Value.I32 120) else none)
          [{ address := 4096, current_value := Value.I32 100,
             previous_value := none }]
          [(4096, Value.I32 100)] [(4096, Value.I32 110)]
          [(4096, Value.I32 120)] 0 := by
  have h := spec_C1 fopsZero
    (fun a => if a = 4096 then some (Value.I32 120) else none)
    [{ address := 4096, current_value := Value.I32 100,
       previous_value := none }]
    [(4096, Value.I32 100)] [(4096, Value.I32 110)] [(4096, Value.I32 120)] 0
    { address := 4096, current_value := Value.I32 100,
      previous_value := none }
    (Value.I32 100) (Value.I32 110) (Value.I32 120)
    (Value.I32 10) (Value.I32 10) (Value.I32 120)
    (by decide) (by decide) (by decide) (by decide) (by decide)
    (by decide) (by decide) (by decide)
  exact h.1 (by
    show withinMargin ((10 : Int) : ℚ) ((10 : Int) : ℚ) 0 = true
    have h10 : ((10 : Int) : ℚ) = (10 : ℚ) := by norm_num
    rw [h10]
    unfold withinMargin
    rw [if_neg (by norm_num), if_neg (by norm_num)]
    simp only [decide_eq_true_eq]
    norm_num)

end Memscan
